import Mathlib

/-!
Shallow embedding of the search engine of `src/src/App.tsx`
(a sliding-block / Sokoban-style solver: a probe pushes contiguous runs of
asteroids on a 2-D grid toward a dock, searched by DFS, BFS and greedy
best-first search).

Modelling conventions:
* JS `Cell = 0|1|2|3|4` becomes `Cell := Nat` with the same numeric tags.
* A `Grid` is a `List (List Cell)`; `g[r][c]` becomes `cellAt g r c : Option Cell`
  (`none` models JS `undefined` on out-of-range access, which compares unequal
  to every cell tag, exactly as in JS).
* Row/column arithmetic in `moveGen` uses `Int`, as JS indices may go negative
  before the `inBounds` test.
* The JS `while` loops are embedded with explicit fuel; each solver is invoked
  with a fuel that is proved sufficient (`…Solve_ne_fuelOut`), so the
  `fuelOut` constructor is an embedding artifact that never occurs.
* JS keys states by `serializeGrid` (a `|`/`,`-separated decimal rendering of
  the rows).  On the grids that ever enter the visited set / parent map of one
  search (the start and `moveGen` successors, which all share the start's
  shape and are non-empty) this encoding is injective and
  `deserializeGrid ∘ serializeGrid = id`, so the embedding keys the visited
  set and parent map by the grid value itself and path reconstruction returns
  the grids directly.
-/

set_option maxHeartbeats 1000000

namespace Probe

abbrev Cell := Nat
abbrev Grid := List (List Cell)
abbrev Pos := Nat × Nat

def EMPTY : Cell := 0
def WALL : Cell := 1
def AST : Cell := 2
def PROBE : Cell := 3
def DOCK : Cell := 4

/-- Number of rows: JS `g.length`. -/
def rows (g : Grid) : Nat := g.length

/-- Number of columns: JS `g[0].length` (the first row's length). -/
def cols (g : Grid) : Nat := (g.headD []).length

/-- JS `g[r][c]` as an `Option`; `none` models `undefined`. -/
def cellAt (g : Grid) (r c : Nat) : Option Cell :=
  (g.get? r).bind (fun row => row.get? c)

/-- JS `g[r][c] = v` (in the source always applied to a fresh clone;
out-of-range writes do not occur on the paths taken, and `List.set`
is a no-op there, matching nothing being observable). -/
def setCell (g : Grid) (r c : Nat) (v : Cell) : Grid :=
  g.set r ((g.getD r []).set c v)

/-- JS `findCell`: first `(r, c)` in row-major order with `g[r][c] === val`,
scanning `r < g.length` and `c < g[0].length`. -/
def findCell (g : Grid) (val : Cell) : Option Pos :=
  (List.range (rows g)).findSome? (fun r =>
    ((List.range (cols g)).find? (fun c => cellAt g r c == some val)).map
      (fun c => (r, c)))

/-- JS `DIRS` (up, down, left, right), as `(dr, dc)` pairs. -/
def DIRS : List (Int × Int) := [(-1, 0), (1, 0), (0, -1), (0, 1)]

/-- JS `inBounds`. -/
def inBounds (g : Grid) (r c : Int) : Bool :=
  0 ≤ r && r < (rows g : Int) && 0 ≤ c && c < (cols g : Int)

/-- The `while (inBounds && g[cr][cc] === AST)` chain-collection loop of
`moveGen`, with fuel (the source loop terminates because each step advances
one cell along a fixed direction; `chainFuel` below is proved sufficient). -/
def collectChain (g : Grid) (dr dc : Int) : Nat → Int → Int → List (Int × Int)
  | 0, _, _ => []
  | fuel + 1, r, c =>
    if inBounds g r c && cellAt g r.toNat c.toNat == some AST then
      (r, c) :: collectChain g dr dc fuel (r + dr) (c + dc)
    else []

/-- Fuel that always suffices for `collectChain` (the run stays in bounds and
advances strictly in one coordinate, so its length is below `rows + cols`). -/
def chainFuel (g : Grid) : Nat := rows g + cols g + 1

/-- The asteroid-shifting loop of a push: iterate the chain from the far end
toward the probe; each step writes `AST` one cell forward and empties the
vacated cell (JS lines 100–104). -/
def shiftChain (g : Grid) (dr dc : Int) (chain : List (Int × Int)) : Grid :=
  chain.reverse.foldl
    (fun ng p =>
      setCell (setCell ng (p.1 + dr).toNat (p.2 + dc).toNat AST) p.1.toNat p.2.toNat EMPTY)
    g

/-- One direction's case analysis inside `moveGen` (`none` = the direction is
skipped, `some ng` = the successor pushed onto `res`). -/
def moveDir (g : Grid) (pr pc : Nat) (d : Int × Int) : Option Grid :=
  let nr : Int := (pr : Int) + d.1
  let nc : Int := (pc : Int) + d.2
  if ¬ (inBounds g nr nc) then none
  else
    match cellAt g nr.toNat nc.toNat with
    | none => none
    | some nextCell =>
      if nextCell = WALL then none
      else if nextCell = EMPTY ∨ nextCell = DOCK then
        some (setCell (setCell g pr pc EMPTY) nr.toNat nc.toNat PROBE)
      else if nextCell = AST then
        let chain := collectChain g d.1 d.2 (chainFuel g) nr nc
        let er : Int := nr + chain.length * d.1
        let ec : Int := nc + chain.length * d.2
        if ¬ (inBounds g er ec) then none
        else if cellAt g er.toNat ec.toNat ≠ some EMPTY then none
        else
          some (setCell (shiftChain (setCell g pr pc EMPTY) d.1 d.2 chain)
            nr.toNat nc.toNat PROBE)
      else none

/-- JS `moveGen`: all valid successors, in direction order Up, Down, Left, Right. -/
def moveGen (g : Grid) : List Grid :=
  match findCell g PROBE with
  | none => []
  | some (pr, pc) => DIRS.filterMap (moveDir g pr pc)

/-- JS `isGoal`: probe position equals the dock position found in the *current*
grid (both must be present). -/
def isGoal (g : Grid) : Bool :=
  match findCell g PROBE, findCell g DOCK with
  | some p, some d => p.1 = d.1 && p.2 = d.2
  | _, _ => false

/-- JS `isAtDock`: probe position equals the dock position captured from the
start grid. -/
def isAtDock (g : Grid) (dockPos : Option Pos) : Bool :=
  match dockPos with
  | none => false
  | some dp =>
    match findCell g PROBE with
    | some p => p.1 = dp.1 && p.2 = dp.2
    | none => false

/-- JS `manhattan`. -/
def manhattan (a b : Pos) : Nat :=
  (max a.1 b.1 - min a.1 b.1) + (max a.2 b.2 - min a.2 b.2)

/-- The goal test used by all three engines: `isGoal(grid) || isAtDock(grid, dockPos)`. -/
def goalTest (dp : Pos) (g : Grid) : Bool :=
  isGoal g || isAtDock g (some dp)

/-! ## Parent map and path reconstruction

JS keeps `parent : Map<string, string | null>`; keyed here by the grid value
(see the header note on injectivity of `serializeGrid`).  Lookup returns the
first binding; the solvers only ever add a binding for a key not yet present,
matching `Map.set` guarded by `has`. -/

abbrev ParentMap := List (Grid × Option Grid)

def lookupParent (parent : ParentMap) (k : Grid) : Option (Option Grid) :=
  (parent.find? (fun e => e.1 == k)).map (fun e => e.2)

/-- Path reconstruction (`while (cur) { path.unshift(...); ... }` in all three
solvers): follow parent links, stopping at a missing or null parent; the fuel
passed by the solvers (`parent.length`) is sufficient because each link points
to a strictly earlier binding. -/
def reconstruct (parent : ParentMap) : Nat → Grid → List Grid
  | 0, k => [k]
  | fuel + 1, k =>
    match lookupParent parent k with
    | some (some p) => reconstruct parent fuel p ++ [k]
    | _ => [k]

/-! ## The three solvers

Each returns an outcome mirroring the JS result object
`{ path, nodesExpanded, visitedProbe }` (wall-clock `timeMs` is real time and
is not modelled).  `found` carries the reconstructed path, `empty` is the
frontier-exhausted failure, `ceiling` the expansion-ceiling failure
(both render as `{ path: null, nodesExpanded, visitedProbe }` in JS);
`fuelOut` is the embedding artifact proved unreachable. -/

inductive SearchOut where
  | found (path : List Grid) (nodes : Nat) (vis : List Pos)
  | empty (nodes : Nat) (vis : List Pos)
  | ceiling (nodes : Nat) (vis : List Pos)
  | fuelOut
deriving DecidableEq, Repr

/-- Append the probe position of `g` to the `visitedProbe` trace
(JS lines 160–161 etc.). -/
def pushVis (g : Grid) (vis : List Pos) : List Pos :=
  match findCell g PROBE with
  | some p => vis ++ [p]
  | none => vis

/-- The DFS `while (stack.length)` loop.  The JS stack stores
`{ grid, parent }` pairs but only reads `grid`; the stack is a `List Grid`
with head = top. -/
def dfsLoop (dp : Pos) (maxNodes : Nat) :
    Nat → List Grid → List Grid → ParentMap → Nat → List Pos → SearchOut
  | 0, _, _, _, _, _ => .fuelOut
  | _ + 1, [], _, _, nodes, vis => .empty nodes vis
  | fuel + 1, g :: stack, seen, parent, nodes, vis =>
    if g ∈ seen then dfsLoop dp maxNodes fuel stack seen parent nodes vis
    else
      let seen' := seen ++ [g]
      let nodes' := nodes + 1
      let vis' := pushVis g vis
      if goalTest dp g then
        .found (reconstruct parent parent.length g) nodes' vis'
      else if maxNodes < nodes' then .ceiling nodes' vis'
      else
        let step := (moveGen g).foldl
          (fun (acc : List Grid × ParentMap) ng =>
            (ng :: acc.1,
             if lookupParent acc.2 ng = none then acc.2 ++ [(ng, some g)] else acc.2))
          (stack, parent)
        dfsLoop dp maxNodes fuel step.1 seen' step.2 nodes' vis'

/-- Fuel sufficient for every DFS/BFS/best-first run (proved below): each loop
iteration either expands (at most `maxNodes + 1` times, each adding at most 4
frontier entries) or strictly shrinks the frontier. -/
def searchFuel (maxNodes : Nat) : Nat := 5 * (maxNodes + 1) + 2

/-- JS `dfsSolve` (default ceiling 120000). -/
def dfsSolve (start : Grid) (maxNodes : Nat := 120000) : SearchOut :=
  match findCell start DOCK, findCell start PROBE with
  | some dp, some _ =>
    dfsLoop dp maxNodes (searchFuel maxNodes) [start] [] [(start, none)] 0 []
  | _, _ => .empty 0 []

/-- The BFS `while (q.length)` loop; `q` is FIFO (head = front). -/
def bfsLoop (dp : Pos) (maxNodes : Nat) :
    Nat → List Grid → List Grid → ParentMap → Nat → List Pos → SearchOut
  | 0, _, _, _, _, _ => .fuelOut
  | _ + 1, [], _, _, nodes, vis => .empty nodes vis
  | fuel + 1, g :: q, seen, parent, nodes, vis =>
    let nodes' := nodes + 1
    let vis' := pushVis g vis
    if goalTest dp g then
      .found (reconstruct parent parent.length g) nodes' vis'
    else if maxNodes < nodes' then .ceiling nodes' vis'
    else
      let step := (moveGen g).foldl
        (fun (acc : List Grid × List Grid × ParentMap) ng =>
          if ng ∈ acc.2.1 then acc
          else (acc.1 ++ [ng], acc.2.1 ++ [ng], acc.2.2 ++ [(ng, some g)]))
        (q, seen, parent)
      bfsLoop dp maxNodes fuel step.1 step.2.1 step.2.2 nodes' vis'

/-- JS `bfsSolve` (default ceiling 150000). -/
def bfsSolve (start : Grid) (maxNodes : Nat := 150000) : SearchOut :=
  match findCell start DOCK, findCell start PROBE with
  | some dp, some _ =>
    bfsLoop dp maxNodes (searchFuel maxNodes) [start] [start] [(start, none)] 0 []
  | _, _ => .empty 0 []

/-- Stable insertion into the score-sorted array: `pq.push(x); pq.sort(by score)`
with a stable sort on an already sorted array places `x` after every entry of
score `≤ x.score` and before the rest. -/
def pqInsert (x : Grid × Nat) : List (Grid × Nat) → List (Grid × Nat)
  | [] => [x]
  | y :: ys => if y.2 ≤ x.2 then y :: pqInsert x ys else x :: y :: ys

/-- JS `pushPQ`: score by Manhattan distance probe→dock; grids without a probe
are ignored. -/
def pushPQ (dp : Pos) (g : Grid) (pq : List (Grid × Nat)) : List (Grid × Nat) :=
  match findCell g PROBE with
  | none => pq
  | some p => pqInsert (g, manhattan p dp) pq

/-- The best-first `while (pq.length)` loop (lazy dedup like DFS). -/
def bestLoop (dp : Pos) (maxNodes : Nat) :
    Nat → List (Grid × Nat) → List Grid → ParentMap → Nat → List Pos → SearchOut
  | 0, _, _, _, _, _ => .fuelOut
  | _ + 1, [], _, _, nodes, vis => .empty nodes vis
  | fuel + 1, (g, _) :: pq, seen, parent, nodes, vis =>
    if g ∈ seen then bestLoop dp maxNodes fuel pq seen parent nodes vis
    else
      let seen' := seen ++ [g]
      let nodes' := nodes + 1
      let vis' := pushVis g vis
      if goalTest dp g then
        .found (reconstruct parent parent.length g) nodes' vis'
      else if maxNodes < nodes' then .ceiling nodes' vis'
      else
        let step := (moveGen g).foldl
          (fun (acc : List (Grid × Nat) × ParentMap) ng =>
            (pushPQ dp ng acc.1,
             if lookupParent acc.2 ng = none then acc.2 ++ [(ng, some g)] else acc.2))
          (pq, parent)
        bestLoop dp maxNodes fuel step.1 seen' step.2 nodes' vis'

/-- JS `bestFirstSolve` (default ceiling 200000): only the dock is checked up
front; a probe-less start is silently dropped by `pushPQ`, so the loop then
runs zero iterations. -/
def bestFirstSolve (start : Grid) (maxNodes : Nat := 200000) : SearchOut :=
  match findCell start DOCK with
  | none => .empty 0 []
  | some dp =>
    bestLoop dp maxNodes (searchFuel maxNodes) (pushPQ dp start [])
      [] [(start, none)] 0 []

/-! ## Derived notions used by the claims -/

/-- One `moveGen` step. -/
def StepRel (g h : Grid) : Prop := h ∈ moveGen g

/-- `p` is a solution path from `s` for dock position `dp`: nonempty, starts at
`s`, consecutive elements are `moveGen` steps, and the last element passes the
engines' goal test. -/
def IsSolPath (dp : Pos) (s : Grid) : List Grid → Prop
  | [] => False
  | a :: rest =>
    a = s ∧ List.Chain StepRel a rest ∧
      goalTest dp ((a :: rest).getLast (List.cons_ne_nil a rest)) = true

/-- Count of cells equal to `v` in the grid. -/
def countCells (g : Grid) (v : Cell) : Nat :=
  (g.map (fun row => row.count v)).sum

/-- The keys bound in a parent map. -/
def keys (pm : ParentMap) : List Grid := pm.map Prod.fst

/-- How all three loops build their parent maps: the start is bound to `null`
before the loop, and each later binding is recorded at most once per key
(`Map.set` guarded by `has` / the eager seen-check), pointing along a
`moveGen` edge to an already-bound predecessor. -/
inductive PMap (s : Grid) : ParentMap → Prop where
  | base : PMap s [(s, none)]
  | snoc {pm : ParentMap} {k p : Grid} : PMap s pm → StepRel p k →
      p ∈ keys pm → k ∉ keys pm → PMap s (pm ++ [(k, some p)])

/-- Depth of a key: the length of the path the solvers would reconstruct for
it (number of configurations, i.e. number of actions plus one). -/
def dep (pm : ParentMap) (k : Grid) : Nat := (reconstruct pm pm.length k).length

/-- Invariant of the DFS stack / best-first queue: every frontier key already
has a parent binding. -/
structure FrontInv (s : Grid) (fr : List Grid) (pm : ParentMap) : Prop where
  pmap : PMap s pm
  fr_keys : ∀ k ∈ fr, k ∈ keys pm

/-- Invariant of the BFS loop state.  `seen` is exactly the set of keys ever
enqueued (eager dedup), the queue depths are sorted and spread by at most one
level, all fully-expanded states (seen but no longer queued) failed the goal
test and have all successors seen one level deeper at most. -/
structure BfsInv (dp : Pos) (s : Grid) (q seen : List Grid) (pm : ParentMap) :
    Prop where
  pmap : PMap s pm
  keys_eq : ∀ k, k ∈ seen ↔ k ∈ keys pm
  seen_nodup : seen.Nodup
  q_nodup : q.Nodup
  q_sub : ∀ k ∈ q, k ∈ seen
  start_seen : s ∈ seen
  exp_no_goal : ∀ u ∈ seen, u ∉ q → goalTest dp u = false
  exp_succ : ∀ u ∈ seen, u ∉ q → ∀ v ∈ moveGen u,
    v ∈ seen ∧ dep pm v ≤ dep pm u + 1
  q_sorted : q.Pairwise (fun a b => dep pm a ≤ dep pm b)
  seen_bound : ∀ u ∈ seen, ∀ w ∈ q, dep pm u ≤ dep pm w + 1

/-- The `i`-th cell of the scan line that starts at `(r, c)` and advances by
`(dr, dc)`: the asteroid run occupies `chainPos … 0 … (k-1)` and the landing
cell is `chainPos … k`. -/
def chainPos (r c dr dc : Int) (i : Nat) : Int × Int := (r + i * dr, c + i * dc)

/-- `chainPos` converted to grid coordinates (the scan stays at nonnegative
coordinates whenever it is consulted). -/
def natPos (r c dr dc : Int) (i : Nat) : Pos :=
  ((chainPos r c dr dc i).1.toNat, (chainPos r c dr dc i).2.toNat)

/-! ## Heap model for the copy-on-write claim

JS grids are arrays of row arrays; `cloneGrid` (`g.map(r => r.slice())`)
allocates a fresh outer array and fresh row arrays, and `moveGen` writes only
into clones.  To state the no-mutation / no-row-sharing property (which is
about object identity, invisible to the pure value model above) we model the
row heap explicitly: a store of row arrays addressed by allocation index, and
a grid reference as a list of row addresses.  `moveGenH` is `moveGen`
re-read against this store; it performs exactly the writes of the source. -/

structure Store where
  rowsH : List (List Cell)
deriving DecidableEq, Repr

abbrev RowId := Nat
abbrev GridRef := List RowId

/-- Dereference a row address. -/
def readRow (s : Store) (i : RowId) : List Cell := s.rowsH.getD i []

/-- The grid value a reference denotes. -/
def denote (s : Store) (gr : GridRef) : Grid := gr.map (readRow s)

/-- JS `ng[r][c] = v` on a referenced grid: mutate the row object held at the
`r`-th address. -/
def writeCellH (s : Store) (gr : GridRef) (r c : Nat) (v : Cell) : Store :=
  match gr.get? r with
  | none => s
  | some id => ⟨s.rowsH.set id ((readRow s id).set c v)⟩

/-- JS `cloneGrid`: allocate fresh row objects holding copies of the rows. -/
def cloneGridH (s : Store) (gr : GridRef) : Store × GridRef :=
  (⟨s.rowsH ++ gr.map (readRow s)⟩, List.range' s.rowsH.length gr.length)

/-- The asteroid-shifting loop of a push, heap side. -/
def shiftChainH (s : Store) (ng : GridRef) (dr dc : Int) (chain : List (Int × Int)) :
    Store :=
  chain.reverse.foldl
    (fun st p =>
      writeCellH (writeCellH st ng (p.1 + dr).toNat (p.2 + dc).toNat AST)
        ng p.1.toNat p.2.toNat EMPTY)
    s

/-- One direction of `moveGen`, heap side: reads go through the store via the
input reference; on a legal move the grid is cloned and the clone written. -/
def moveDirH (s : Store) (gr : GridRef) (pr pc : Nat) (d : Int × Int) :
    Option (Store × GridRef) :=
  let g := denote s gr
  let nr : Int := (pr : Int) + d.1
  let nc : Int := (pc : Int) + d.2
  if ¬ (inBounds g nr nc) then none
  else
    match cellAt g nr.toNat nc.toNat with
    | none => none
    | some nextCell =>
      if nextCell = WALL then none
      else if nextCell = EMPTY ∨ nextCell = DOCK then
        let c := cloneGridH s gr
        some (writeCellH (writeCellH c.1 c.2 pr pc EMPTY) c.2 nr.toNat nc.toNat PROBE,
          c.2)
      else if nextCell = AST then
        let chain := collectChain g d.1 d.2 (chainFuel g) nr nc
        let er : Int := nr + chain.length * d.1
        let ec : Int := nc + chain.length * d.2
        if ¬ (inBounds g er ec) then none
        else if cellAt g er.toNat ec.toNat ≠ some EMPTY then none
        else
          let c := cloneGridH s gr
          some (writeCellH
            (shiftChainH (writeCellH c.1 c.2 pr pc EMPTY) c.2 d.1 d.2 chain)
            c.2 nr.toNat nc.toNat PROBE, c.2)
      else none

/-- One iteration of the direction loop of `moveGen`, heap side: a legal move
replaces the store with the written-to one and appends the new reference. -/
def moveGenHStep (gr : GridRef) (pr pc : Nat)
    (acc : Store × List GridRef) (d : Int × Int) : Store × List GridRef :=
  match moveDirH acc.1 gr pr pc d with
  | none => acc
  | some (s', ng) => (s', acc.2 ++ [ng])

/-- JS `moveGen`, heap side: successors are accumulated left to right, each
allocating its own clone from the store as it stands. -/
def moveGenH (s : Store) (gr : GridRef) : Store × List GridRef :=
  match findCell (denote s gr) PROBE with
  | none => (s, [])
  | some (pr, pc) => DIRS.foldl (moveGenHStep gr pr pc) (s, [])

/-- A reference is valid in a store when all its row addresses are allocated. -/
def ValidRef (s : Store) (gr : GridRef) : Prop :=
  ∀ id ∈ gr, id < s.rowsH.length

/-! # Lemmas -/

/-! ## Cells, writes and counts -/

theorem cellAt_eq_getElem (g : Grid) (r c : Nat) :
    cellAt g r c = (g[r]?).bind (fun row => row[c]?) := by
  simp [cellAt]

theorem cellAt_setCell (g : Grid) (r c : Nat) (v : Cell) (r' c' : Nat) :
    cellAt (setCell g r c v) r' c' =
      if r = r' ∧ c = c' ∧ (cellAt g r c).isSome then some v
      else cellAt g r' c' := by
  simp only [cellAt_eq_getElem, setCell]
  by_cases hr : r < g.length
  · have hgetD : g.getD r [] = g[r] := by
      simp [List.getD, List.get?_eq_getElem?, List.getElem?_eq_getElem hr]
    rw [hgetD]
    by_cases hrr : r = r'
    · subst hrr
      rw [List.getElem?_set_self (by simpa using hr), List.getElem?_eq_getElem hr]
      simp only [Option.some_bind]
      by_cases hc : c < g[r].length
      · by_cases hcc : c = c'
        · subst hcc
          rw [List.getElem?_set_self hc, List.getElem?_eq_getElem hc]
          simp
        · rw [List.getElem?_set_ne hcc]
          simp [hcc]
      · rw [List.set_eq_of_length_le (by omega)]
        have hnone : g[r][c]? = none := by
          simp only [List.getElem?_eq_none_iff]; omega
        simp [hnone]
    · rw [List.getElem?_set_ne hrr]
      simp [hrr]
  · rw [List.set_eq_of_length_le (by simpa using Nat.le_of_not_lt hr)]
    have hnone : g[r]? = none := by
      simp only [List.getElem?_eq_none_iff]; omega
    simp [hnone]

theorem rows_setCell (g : Grid) (r c : Nat) (v : Cell) :
    rows (setCell g r c v) = rows g := by
  simp [rows, setCell]

theorem cols_setCell (g : Grid) (r c : Nat) (v : Cell) :
    cols (setCell g r c v) = cols g := by
  rcases g with _ | ⟨row, t⟩
  · simp [setCell]
  · rcases r with _ | r <;> simp [cols, setCell, List.getD]

theorem countCells_setCell (g : Grid) (r c : Nat) (old v : Cell)
    (h : cellAt g r c = some old) (w : Cell) :
    countCells (setCell g r c v) w + (if old = w then 1 else 0)
      = countCells g w + (if v = w then 1 else 0) := by
  rw [cellAt_eq_getElem] at h
  rcases hrow : g[r]? with _ | row
  · rw [hrow] at h; simp at h
  · have hr : r < g.length := by
      by_contra hcon
      rw [List.getElem?_eq_none_iff.mpr (by omega)] at hrow
      exact absurd hrow (by simp)
    have hgr : g[r] = row := by
      rw [List.getElem?_eq_getElem hr] at hrow
      exact Option.some.inj hrow
    have hc : row[c]? = some old := by rw [hrow] at h; simpa using h
    have hcl : c < row.length := by
      by_contra hcon
      rw [List.getElem?_eq_none_iff.mpr (by omega)] at hc
      exact absurd hc (by simp)
    have hrc : row[c] = old := by
      rw [List.getElem?_eq_getElem hcl] at hc
      exact Option.some.inj hc
    have hget : g.getD r [] = row := by
      simp [List.getD, List.get?_eq_getElem?, hrow]
    unfold countCells setCell
    rw [hget]
    have hgdecomp : g = g.take r ++ g[r] :: g.drop (r + 1) := by
      conv_lhs => rw [← List.take_append_drop r g, ← List.getElem_cons_drop g r hr]
    have hrdecomp : row = row.take c ++ row[c] :: row.drop (c + 1) := by
      conv_lhs => rw [← List.take_append_drop c row, ← List.getElem_cons_drop row c hcl]
    rw [List.set_eq_take_append_cons_drop, if_pos hr]
    conv_rhs => rw [hgdecomp]
    simp only [List.map_append, List.map_cons, List.sum_append, List.sum_cons, hgr]
    have hrowcount : (row.set c v).count w + (if old = w then 1 else 0)
        = row.count w + (if v = w then 1 else 0) := by
      rw [List.set_eq_take_append_cons_drop, if_pos hcl]
      conv_rhs => rw [hrdecomp]
      simp only [List.count_append, List.count_cons, hrc]
      by_cases h1 : old = w <;> by_cases h2 : v = w <;>
        simp [h1, h2, beq_iff_eq] <;> omega
    omega

theorem countCells_setCell_eq (g : Grid) (r c : Nat) (v : Cell)
    (h : cellAt g r c = some v) (w : Cell) :
    countCells (setCell g r c v) w = countCells g w := by
  have := countCells_setCell g r c v v h w
  omega

/-! ## findCell -/

theorem findCell_spec (g : Grid) (val : Cell) (p : Pos)
    (h : findCell g val = some p) : cellAt g p.1 p.2 = some val := by
  unfold findCell at h
  obtain ⟨r, _, hr⟩ := List.exists_of_findSome?_eq_some h
  rcases hfind : (List.range (cols g)).find? (fun c => cellAt g r c == some val)
    with _ | c
  · rw [hfind] at hr; simp at hr
  · rw [hfind] at hr
    have hc := List.find?_some hfind
    simp only [beq_iff_eq] at hc
    have hp : (r, c) = p := Option.some.inj (by simpa using hr)
    cases hp
    exact hc

theorem isGoal_false (g : Grid) : isGoal g = false := by
  unfold isGoal
  rcases hp : findCell g PROBE with _ | p
  · rfl
  · rcases hd : findCell g DOCK with _ | d
    · rfl
    · have h1 := findCell_spec g PROBE p hp
      have h2 := findCell_spec g DOCK d hd
      simp only [Bool.and_eq_true, decide_eq_true_eq]
      by_contra hcon
      simp only [Bool.not_eq_false, Bool.and_eq_true, decide_eq_true_eq] at hcon
      obtain ⟨e1, e2⟩ := hcon
      have : p = d := Prod.ext e1 e2
      rw [this, h2] at h1
      simp [PROBE, DOCK] at h1

/-! ## Directions and bounds -/

theorem inBounds_iff (g : Grid) (r c : Int) :
    inBounds g r c = true ↔
      0 ≤ r ∧ r < (rows g : Int) ∧ 0 ≤ c ∧ c < (cols g : Int) := by
  simp [inBounds, and_assoc]

theorem mem_DIRS (d : Int × Int) (h : d ∈ DIRS) :
    d = (-1, 0) ∨ d = (1, 0) ∨ d = (0, -1) ∨ d = (0, 1) := by
  simpa [DIRS] using h

theorem chainPos_succ (r c dr dc : Int) (i : Nat) :
    chainPos r c dr dc (i + 1) = chainPos (r + dr) (c + dc) dr dc i := by
  simp only [chainPos, Prod.mk.injEq]
  constructor <;> push_cast <;> ring

theorem chainPos_fst_add (r c dr dc : Int) (i : Nat) :
    (chainPos r c dr dc i).1 + dr = (chainPos r c dr dc (i + 1)).1 := by
  simp only [chainPos]; push_cast; ring

theorem chainPos_snd_add (r c dr dc : Int) (i : Nat) :
    (chainPos r c dr dc i).2 + dc = (chainPos r c dr dc (i + 1)).2 := by
  simp only [chainPos]; push_cast; ring

/-! ## The chain-collection loop -/

theorem collectChain_eq (g : Grid) (dr dc : Int) (fuel : Nat) (r c : Int) :
    ∃ k, k ≤ fuel ∧
      collectChain g dr dc fuel r c = (List.range k).map (chainPos r c dr dc) ∧
      (∀ i, i < k →
        inBounds g (chainPos r c dr dc i).1 (chainPos r c dr dc i).2 = true ∧
        cellAt g (chainPos r c dr dc i).1.toNat (chainPos r c dr dc i).2.toNat
          = some AST) ∧
      (k < fuel →
        ¬(inBounds g (chainPos r c dr dc k).1 (chainPos r c dr dc k).2 = true ∧
          cellAt g (chainPos r c dr dc k).1.toNat (chainPos r c dr dc k).2.toNat
            = some AST)) := by
  induction fuel generalizing r c with
  | zero => exact ⟨0, le_rfl, rfl, fun i hi => absurd hi (by omega), fun h => absurd h (by omega)⟩
  | succ fuel ih =>
    by_cases hcond : inBounds g r c = true ∧ cellAt g r.toNat c.toNat = some AST
    · obtain ⟨k, hk, heq, hprops, hmax⟩ := ih (r + dr) (c + dc)
      refine ⟨k + 1, by omega, ?_, ?_, ?_⟩
      · rw [collectChain]
        rw [if_pos (by simp [hcond.1, hcond.2])]
        rw [heq, List.range_succ_eq_map, List.map_cons, List.map_map]
        congr 1
        · simp [chainPos]
        · apply List.map_congr_left
          intro i _
          simp only [Function.comp_apply]
          rw [← chainPos_succ]
      · intro i hi
        cases i with
        | zero => simpa [chainPos] using hcond
        | succ j =>
          rw [chainPos_succ]
          exact hprops j (by omega)
      · intro hlt
        rw [chainPos_succ]
        exact hmax (by omega)
    · refine ⟨0, by omega, ?_, fun i hi => absurd hi (by omega), fun _ => ?_⟩
      · rw [collectChain]
        rw [if_neg (by
          intro hcon
          simp only [Bool.and_eq_true, beq_iff_eq] at hcon
          exact hcond ⟨hcon.1, hcon.2⟩)]
        simp
      · simpa [chainPos] using hcond

/-- For an actual direction, the chain never exhausts `chainFuel`:
it advances strictly in one coordinate and stays inside the grid. -/
theorem collectChain_lt_chainFuel (g : Grid) (d : Int × Int) (hd : d ∈ DIRS)
    (r c : Int) (k : Nat) (hk : k ≤ chainFuel g)
    (hprops : ∀ i, i < k →
      inBounds g (chainPos r c d.1 d.2 i).1 (chainPos r c d.1 d.2 i).2 = true ∧
      cellAt g (chainPos r c d.1 d.2 i).1.toNat (chainPos r c d.1 d.2 i).2.toNat
        = some AST) :
    k < chainFuel g := by
  by_contra hcon
  have hke : k = chainFuel g := by omega
  have hk1 : 1 ≤ k := by unfold chainFuel at hke; omega
  have h0 := (inBounds_iff _ _ _).mp (hprops 0 (by omega)).1
  have hlast := (inBounds_iff _ _ _).mp (hprops (k - 1) (by omega)).1
  simp only [chainPos] at h0 hlast
  rcases mem_DIRS d hd with h | h | h | h <;>
    (subst h
     simp only [Int.reduceNeg, Nat.cast_zero] at h0 hlast
     unfold chainFuel at hke
     push_cast at h0 hlast
     omega)

/-! ## The asteroid-shifting loop -/

theorem shiftChain_nil (g : Grid) (dr dc : Int) : shiftChain g dr dc [] = g := rfl

theorem shiftChain_peel (g : Grid) (dr dc nr nc : Int) (k : Nat) :
    shiftChain g dr dc ((List.range (k + 1)).map (chainPos nr nc dr dc)) =
      shiftChain
        (setCell
          (setCell g (chainPos nr nc dr dc (k + 1)).1.toNat
            (chainPos nr nc dr dc (k + 1)).2.toNat AST)
          (chainPos nr nc dr dc k).1.toNat (chainPos nr nc dr dc k).2.toNat EMPTY)
        dr dc ((List.range k).map (chainPos nr nc dr dc)) := by
  unfold shiftChain
  rw [List.range_succ, List.map_append, List.reverse_append]
  simp only [List.map_cons, List.map_nil, List.reverse_cons, List.reverse_nil,
    List.nil_append, List.cons_append, List.foldl_cons]
  rw [chainPos_fst_add nr nc dr dc k, chainPos_snd_add nr nc dr dc k]

theorem cellAt_setCell_pair (g : Grid) (p q : Pos) (v : Cell) :
    cellAt (setCell g p.1 p.2 v) q.1 q.2 =
      if p = q ∧ (cellAt g p.1 p.2).isSome then some v else cellAt g q.1 q.2 := by
  rw [cellAt_setCell]
  by_cases h1 : p = q
  · subst h1
    by_cases h2 : (cellAt g p.1 p.2).isSome
    · rw [if_pos ⟨rfl, rfl, h2⟩, if_pos ⟨rfl, h2⟩]
    · rw [if_neg (by tauto), if_neg (by tauto)]
  · rw [if_neg (by
      intro hcon
      exact h1 (Prod.ext hcon.1 hcon.2.1)), if_neg (by tauto)]

theorem shiftChain_spec (dr dc nr nc : Int) (k : Nat) : ∀ (g : Grid), 1 ≤ k →
    (∀ i, i ≤ k →
      (cellAt g (natPos nr nc dr dc i).1 (natPos nr nc dr dc i).2).isSome) →
    (∀ i, 1 ≤ i → i < k →
      cellAt g (natPos nr nc dr dc i).1 (natPos nr nc dr dc i).2 = some AST) →
    (∀ i j, i ≤ k → j ≤ k → i ≠ j →
      natPos nr nc dr dc i ≠ natPos nr nc dr dc j) →
    ∀ q : Pos,
      cellAt (shiftChain g dr dc ((List.range k).map (chainPos nr nc dr dc))) q.1 q.2 =
        if natPos nr nc dr dc k = q then some AST
        else if natPos nr nc dr dc 0 = q then some EMPTY
        else cellAt g q.1 q.2 := by
  induction k with
  | zero => omega
  | succ k ih =>
    intro g _ hsome hAST hdiff q
    have hpeel : shiftChain g dr dc
        ((List.range (k + 1)).map (chainPos nr nc dr dc)) =
        shiftChain
          (setCell
            (setCell g (natPos nr nc dr dc (k + 1)).1 (natPos nr nc dr dc (k + 1)).2 AST)
            (natPos nr nc dr dc k).1 (natPos nr nc dr dc k).2 EMPTY)
          dr dc ((List.range k).map (chainPos nr nc dr dc)) := shiftChain_peel ..
    rw [hpeel]
    have hnek : natPos nr nc dr dc k ≠ natPos nr nc dr dc (k + 1) :=
      hdiff k (k + 1) (by omega) (by omega) (by omega)
    have hcell' : ∀ a : Pos, cellAt
        (setCell
          (setCell g (natPos nr nc dr dc (k + 1)).1 (natPos nr nc dr dc (k + 1)).2 AST)
          (natPos nr nc dr dc k).1 (natPos nr nc dr dc k).2 EMPTY) a.1 a.2 =
        if natPos nr nc dr dc k = a then some EMPTY
        else if natPos nr nc dr dc (k + 1) = a then some AST
        else cellAt g a.1 a.2 := by
      intro a
      rw [cellAt_setCell_pair]
      have hs1 : (cellAt g (natPos nr nc dr dc (k + 1)).1
          (natPos nr nc dr dc (k + 1)).2).isSome := hsome (k + 1) (by omega)
      have hsk : (cellAt
          (setCell g (natPos nr nc dr dc (k + 1)).1 (natPos nr nc dr dc (k + 1)).2 AST)
          (natPos nr nc dr dc k).1 (natPos nr nc dr dc k).2).isSome = true := by
        rw [cellAt_setCell_pair, if_neg (fun hcon => hnek.symm hcon.1)]
        exact hsome k (by omega)
      by_cases hqk : natPos nr nc dr dc k = a
      · rw [if_pos ⟨hqk, hsk⟩, if_pos hqk]
      · rw [if_neg (fun hcon => hqk hcon.1), if_neg hqk, cellAt_setCell_pair]
        by_cases hqk1 : natPos nr nc dr dc (k + 1) = a
        · rw [if_pos ⟨hqk1, hs1⟩, if_pos hqk1]
        · rw [if_neg (fun hcon => hqk1 hcon.1), if_neg hqk1]
    rcases Nat.eq_zero_or_pos k with hk0 | hkpos
    · subst hk0
      rw [List.range_zero, List.map_nil, shiftChain_nil, hcell' q]
      by_cases hq0 : natPos nr nc dr dc 0 = q
      · rw [if_pos hq0, if_neg (by
          intro hcon
          exact hdiff 1 0 (by omega) (by omega) (by omega) (hcon.trans hq0.symm)),
          if_pos hq0]
      · rw [if_neg hq0]
        by_cases hq1 : natPos nr nc dr dc 1 = q
        · rw [if_pos hq1, if_pos hq1]
        · rw [if_neg hq1, if_neg hq1, if_neg hq0]
    · rw [ih _ hkpos
        (by
          intro i hi
          rw [hcell' (natPos nr nc dr dc i)]
          by_cases h1 : natPos nr nc dr dc k = natPos nr nc dr dc i
          · rw [if_pos h1]; rfl
          · rw [if_neg h1]
            by_cases h2 : natPos nr nc dr dc (k + 1) = natPos nr nc dr dc i
            · rw [if_pos h2]; rfl
            · rw [if_neg h2]; exact hsome i (by omega))
        (by
          intro i h1i hik
          rw [hcell' (natPos nr nc dr dc i)]
          rw [if_neg (fun hcon =>
            hdiff k i (by omega) (by omega) (by omega) hcon)]
          rw [if_neg (fun hcon =>
            hdiff (k + 1) i (by omega) (by omega) (by omega) hcon)]
          exact hAST i h1i (by omega))
        (by
          intro i j hi hj hij
          exact hdiff i j (by omega) (by omega) hij)
        q]
      by_cases hq1 : natPos nr nc dr dc (k + 1) = q
      · have hqk : natPos nr nc dr dc k ≠ q := fun hcon =>
          hdiff k (k + 1) (by omega) (by omega) (by omega) (hcon.trans hq1.symm)
        have hq0 : natPos nr nc dr dc 0 ≠ q := fun hcon =>
          hdiff 0 (k + 1) (by omega) (by omega) (by omega) (hcon.trans hq1.symm)
        rw [if_neg hqk, if_neg hq0, hcell' q, if_neg hqk, if_pos hq1, if_pos hq1]
      · rw [if_neg hq1]
        by_cases hqk : natPos nr nc dr dc k = q
        · have hq0 : natPos nr nc dr dc 0 ≠ q := fun hcon =>
            hdiff 0 k (by omega) (by omega) (by omega) (hcon.trans hqk.symm)
          rw [if_pos hqk, if_neg hq0, ← hqk]
          exact (hAST k (by omega) (by omega)).symm
        · rw [if_neg hqk]
          by_cases hq0 : natPos nr nc dr dc 0 = q
          · rw [if_pos hq0, if_pos hq0]
          · rw [if_neg hq0, hcell' q, if_neg hqk, if_neg hq1, if_neg hq0]

/-! ## moveDir case analysis -/

theorem moveDir_oob (g : Grid) (pr pc : Nat) (d : Int × Int)
    (hb : inBounds g ((pr : Int) + d.1) ((pc : Int) + d.2) = false) :
    moveDir g pr pc d = none := by
  simp [moveDir, hb]

theorem moveDir_wall (g : Grid) (pr pc : Nat) (d : Int × Int)
    (hb : inBounds g ((pr : Int) + d.1) ((pc : Int) + d.2) = true)
    (hw : cellAt g ((pr : Int) + d.1).toNat ((pc : Int) + d.2).toNat = some WALL) :
    moveDir g pr pc d = none := by
  simp [moveDir, hb, hw, WALL]

theorem moveDir_step (g : Grid) (pr pc : Nat) (d : Int × Int) (v : Cell)
    (hb : inBounds g ((pr : Int) + d.1) ((pc : Int) + d.2) = true)
    (hv : cellAt g ((pr : Int) + d.1).toNat ((pc : Int) + d.2).toNat = some v)
    (hvE : v = EMPTY ∨ v = DOCK) :
    moveDir g pr pc d =
      some (setCell (setCell g pr pc EMPTY)
        ((pr : Int) + d.1).toNat ((pc : Int) + d.2).toNat PROBE) := by
  rcases hvE with h | h <;> subst h <;>
    simp [moveDir, hb, hv, EMPTY, DOCK, WALL]

theorem moveDir_ast (g : Grid) (pr pc : Nat) (d : Int × Int)
    (hb : inBounds g ((pr : Int) + d.1) ((pc : Int) + d.2) = true)
    (hast : cellAt g ((pr : Int) + d.1).toNat ((pc : Int) + d.2).toNat = some AST) :
    moveDir g pr pc d =
      (if ¬ (inBounds g
          (((pr : Int) + d.1) +
            (collectChain g d.1 d.2 (chainFuel g) ((pr : Int) + d.1)
              ((pc : Int) + d.2)).length * d.1)
          (((pc : Int) + d.2) +
            (collectChain g d.1 d.2 (chainFuel g) ((pr : Int) + d.1)
              ((pc : Int) + d.2)).length * d.2)) then none
      else if cellAt g
          ((((pr : Int) + d.1) +
            (collectChain g d.1 d.2 (chainFuel g) ((pr : Int) + d.1)
              ((pc : Int) + d.2)).length * d.1)).toNat
          ((((pc : Int) + d.2) +
            (collectChain g d.1 d.2 (chainFuel g) ((pr : Int) + d.1)
              ((pc : Int) + d.2)).length * d.2)).toNat ≠ some EMPTY then none
      else some (setCell
        (shiftChain (setCell g pr pc EMPTY) d.1 d.2
          (collectChain g d.1 d.2 (chainFuel g) ((pr : Int) + d.1)
            ((pc : Int) + d.2)))
        ((pr : Int) + d.1).toNat ((pc : Int) + d.2).toNat PROBE)) := by
  simp only [moveDir, hb, Bool.true_eq_false, not_true_eq_false, if_false, hast,
    Bool.not_eq_true]
  norm_num [AST, WALL, EMPTY, DOCK]

theorem probe_ne_step {g : Grid} (pr pc : Nat) (d : Int × Int) (hd : d ∈ DIRS)
    (hb : inBounds g ((pr : Int) + d.1) ((pc : Int) + d.2) = true) :
    (pr, pc) ≠ ((((pr : Int) + d.1)).toNat, (((pc : Int) + d.2)).toNat) := by
  have hbb := (inBounds_iff _ _ _).mp hb
  intro hcon
  rw [Prod.mk.injEq] at hcon
  rcases mem_DIRS d hd with h | h | h | h <;> subst h <;>
    (simp only [] at hbb hcon ; omega)

theorem step_cells (g : Grid) (pr pc : Nat) (d : Int × Int) (hd : d ∈ DIRS)
    (hp : cellAt g pr pc = some PROBE)
    (hb : inBounds g ((pr : Int) + d.1) ((pc : Int) + d.2) = true)
    (htgt : (cellAt g ((pr : Int) + d.1).toNat ((pc : Int) + d.2).toNat).isSome) :
    ∀ q : Pos, cellAt (setCell (setCell g pr pc EMPTY)
        ((pr : Int) + d.1).toNat ((pc : Int) + d.2).toNat PROBE) q.1 q.2 =
      if (((pr : Int) + d.1).toNat, ((pc : Int) + d.2).toNat) = q then some PROBE
      else if (pr, pc) = q then some EMPTY
      else cellAt g q.1 q.2 := by
  intro q
  have hne := probe_ne_step pr pc d hd hb
  have hstep : cellAt (setCell g pr pc EMPTY)
      ((pr : Int) + d.1).toNat ((pc : Int) + d.2).toNat =
      cellAt g ((pr : Int) + d.1).toNat ((pc : Int) + d.2).toNat := by
    have hpair := cellAt_setCell_pair g (pr, pc)
      (((pr : Int) + d.1).toNat, ((pc : Int) + d.2).toNat) EMPTY
    simp only [] at hpair
    have hcne : ¬((pr, pc) =
        (((((pr : Int) + d.1).toNat, ((pc : Int) + d.2).toNat)) : Pos)
        ∧ (cellAt g pr pc).isSome = true) := fun hcon => hne hcon.1
    rw [hpair, if_neg hcne]
  have h2 := cellAt_setCell_pair (setCell g pr pc EMPTY)
    (((pr : Int) + d.1).toNat, ((pc : Int) + d.2).toNat) q PROBE
  simp only [] at h2
  rw [h2]
  by_cases hq1 : (((((pr : Int) + d.1).toNat, ((pc : Int) + d.2).toNat)) : Pos) = q
  · rw [if_pos ⟨hq1, by rw [hstep]; exact htgt⟩, if_pos hq1]
  · have hn1 : ¬((((((pr : Int) + d.1).toNat, ((pc : Int) + d.2).toNat)) : Pos) = q
        ∧ (cellAt (setCell g pr pc EMPTY) ((pr : Int) + d.1).toNat
            ((pc : Int) + d.2).toNat).isSome = true) := fun hcon => hq1 hcon.1
    rw [if_neg hn1, if_neg hq1]
    have h3 := cellAt_setCell_pair g (pr, pc) q EMPTY
    simp only [] at h3
    rw [h3]
    by_cases hq2 : ((pr, pc) : Pos) = q
    · rw [if_pos ⟨hq2, by rw [hp]; rfl⟩, if_pos hq2]
    · have hn2 : ¬(((pr, pc) : Pos) = q ∧ (cellAt g pr pc).isSome = true) :=
        fun hcon => hq2 hcon.1
      rw [if_neg hn2, if_neg hq2]

theorem natPos_fst (r c dr dc : Int) (i : Nat) :
    (natPos r c dr dc i).1 = (chainPos r c dr dc i).1.toNat := rfl

theorem natPos_snd (r c dr dc : Int) (i : Nat) :
    (natPos r c dr dc i).2 = (chainPos r c dr dc i).2.toNat := rfl

/-- Distinct chain indices give distinct grid positions (the scan line advances
strictly in one coordinate and stays in bounds, so `toNat` is faithful). -/
theorem natPos_inj (g : Grid) (r c : Int) (d : Int × Int) (hd : d ∈ DIRS) (k : Nat)
    (hbs : ∀ i, i ≤ k →
      inBounds g (chainPos r c d.1 d.2 i).1 (chainPos r c d.1 d.2 i).2 = true) :
    ∀ i j, i ≤ k → j ≤ k → i ≠ j →
      natPos r c d.1 d.2 i ≠ natPos r c d.1 d.2 j := by
  intro i j hi hj hij hcon
  have hbi := (inBounds_iff _ _ _).mp (hbs i hi)
  have hbj := (inBounds_iff _ _ _).mp (hbs j hj)
  rw [Prod.mk.injEq] at hcon
  simp only [natPos_fst, natPos_snd, chainPos] at hcon hbi hbj
  rcases mem_DIRS d hd with h | h | h | h <;> subst h <;>
    (simp only [] at hcon hbi hbj ; omega)

/-- The probe's own cell is never on the scan line. -/
theorem probe_ne_chain (g : Grid) (pr pc : Nat) (d : Int × Int) (hd : d ∈ DIRS)
    (k : Nat)
    (hbs : ∀ i, i ≤ k →
      inBounds g (chainPos ((pr : Int) + d.1) ((pc : Int) + d.2) d.1 d.2 i).1
        (chainPos ((pr : Int) + d.1) ((pc : Int) + d.2) d.1 d.2 i).2 = true) :
    ∀ i, i ≤ k → (pr, pc) ≠ natPos ((pr : Int) + d.1) ((pc : Int) + d.2) d.1 d.2 i := by
  intro i hi hcon
  have hbi := (inBounds_iff _ _ _).mp (hbs i hi)
  rw [Prod.mk.injEq] at hcon
  simp only [natPos_fst, natPos_snd, chainPos] at hcon hbi
  rcases mem_DIRS d hd with h | h | h | h <;> subst h <;>
    (simp only [] at hcon hbi ; omega)

/-- Shifting a chain neither creates nor destroys any kind of cell: the head
cell loses an obstacle and the landing cell gains one. -/
theorem countCells_shiftChain (dr dc nr nc : Int) (k : Nat) : ∀ (g : Grid),
    1 ≤ k →
    (∀ i, i < k →
      cellAt g (natPos nr nc dr dc i).1 (natPos nr nc dr dc i).2 = some AST) →
    cellAt g (natPos nr nc dr dc k).1 (natPos nr nc dr dc k).2 = some EMPTY →
    (∀ i j, i ≤ k → j ≤ k → i ≠ j →
      natPos nr nc dr dc i ≠ natPos nr nc dr dc j) →
    ∀ w, countCells (shiftChain g dr dc
        ((List.range k).map (chainPos nr nc dr dc))) w = countCells g w := by
  induction k with
  | zero => omega
  | succ k ih =>
    intro g _ hAST hland hdiff w
    have hpeel : shiftChain g dr dc
        ((List.range (k + 1)).map (chainPos nr nc dr dc)) =
        shiftChain
          (setCell
            (setCell g (natPos nr nc dr dc (k + 1)).1 (natPos nr nc dr dc (k + 1)).2 AST)
            (natPos nr nc dr dc k).1 (natPos nr nc dr dc k).2 EMPTY)
          dr dc ((List.range k).map (chainPos nr nc dr dc)) := shiftChain_peel ..
    rw [hpeel]
    have hnek : natPos nr nc dr dc k ≠ natPos nr nc dr dc (k + 1) :=
      hdiff k (k + 1) (by omega) (by omega) (by omega)
    have hc1 : ∀ u, countCells
        (setCell g (natPos nr nc dr dc (k + 1)).1 (natPos nr nc dr dc (k + 1)).2 AST) u
        + (if EMPTY = u then 1 else 0) = countCells g u + (if AST = u then 1 else 0) :=
      fun u => countCells_setCell g _ _ EMPTY AST hland u
    have hmid : cellAt
        (setCell g (natPos nr nc dr dc (k + 1)).1 (natPos nr nc dr dc (k + 1)).2 AST)
        (natPos nr nc dr dc k).1 (natPos nr nc dr dc k).2 = some AST := by
      have hpair := cellAt_setCell_pair g (natPos nr nc dr dc (k + 1))
        (natPos nr nc dr dc k) AST
      rw [hpair, if_neg (fun hcon => hnek.symm hcon.1)]
      exact hAST k (by omega)
    have hc2 : ∀ u, countCells
        (setCell
          (setCell g (natPos nr nc dr dc (k + 1)).1 (natPos nr nc dr dc (k + 1)).2 AST)
          (natPos nr nc dr dc k).1 (natPos nr nc dr dc k).2 EMPTY) u
        + (if AST = u then 1 else 0) =
        countCells
          (setCell g (natPos nr nc dr dc (k + 1)).1 (natPos nr nc dr dc (k + 1)).2 AST) u
          + (if EMPTY = u then 1 else 0) :=
      fun u => countCells_setCell _ _ _ AST EMPTY hmid u
    have hg' : ∀ u, countCells
        (setCell
          (setCell g (natPos nr nc dr dc (k + 1)).1 (natPos nr nc dr dc (k + 1)).2 AST)
          (natPos nr nc dr dc k).1 (natPos nr nc dr dc k).2 EMPTY) u = countCells g u := by
      intro u
      have h1 := hc1 u
      have h2 := hc2 u
      omega
    rcases Nat.eq_zero_or_pos k with hk0 | hkpos
    · subst hk0
      rw [List.range_zero, List.map_nil, shiftChain_nil]
      exact hg' w
    · rw [ih _ hkpos
        (by
          intro i hi
          have hpair1 := cellAt_setCell_pair g (natPos nr nc dr dc (k + 1))
            (natPos nr nc dr dc i) AST
          have hpair2 := cellAt_setCell_pair
            (setCell g (natPos nr nc dr dc (k + 1)).1 (natPos nr nc dr dc (k + 1)).2 AST)
            (natPos nr nc dr dc k) (natPos nr nc dr dc i) EMPTY
          rw [hpair2, if_neg (fun hcon =>
            hdiff k i (by omega) (by omega) (by omega) hcon.1), hpair1,
            if_neg (fun hcon =>
              hdiff (k + 1) i (by omega) (by omega) (by omega) hcon.1)]
          exact hAST i (by omega))
        (by
          have hpair2 := cellAt_setCell_pair
            (setCell g (natPos nr nc dr dc (k + 1)).1 (natPos nr nc dr dc (k + 1)).2 AST)
            (natPos nr nc dr dc k) (natPos nr nc dr dc k) EMPTY
          rw [hpair2, if_pos ⟨rfl, by rw [hmid]; rfl⟩])
        (by
          intro i j hi hj hij
          exact hdiff i j (by omega) (by omega) hij)
        w]
      exact hg' w

/-- Full characterisation of the push case of one direction of `moveGen`:
if the adjacent cell holds an obstacle, there is a unique maximal contiguous
run of `k ≥ 1` obstacles; a successor is emitted iff the landing cell
(`natPos … k`) is in bounds and empty, and the successor equals the
predecessor except that the probe cell is emptied, the probe occupies the
adjacent cell, and an obstacle occupies the landing cell. -/
theorem moveDir_push_spec (g : Grid) (pr pc : Nat) (d : Int × Int) (hd : d ∈ DIRS)
    (hp : cellAt g pr pc = some PROBE)
    (hb : inBounds g ((pr : Int) + d.1) ((pc : Int) + d.2) = true)
    (hast : cellAt g ((pr : Int) + d.1).toNat ((pc : Int) + d.2).toNat = some AST) :
    ∃ k, 1 ≤ k ∧
      (∀ i, i < k →
        inBounds g (chainPos ((pr : Int) + d.1) ((pc : Int) + d.2) d.1 d.2 i).1
          (chainPos ((pr : Int) + d.1) ((pc : Int) + d.2) d.1 d.2 i).2 = true ∧
        cellAt g (natPos ((pr : Int) + d.1) ((pc : Int) + d.2) d.1 d.2 i).1
          (natPos ((pr : Int) + d.1) ((pc : Int) + d.2) d.1 d.2 i).2 = some AST) ∧
      ¬(inBounds g (chainPos ((pr : Int) + d.1) ((pc : Int) + d.2) d.1 d.2 k).1
          (chainPos ((pr : Int) + d.1) ((pc : Int) + d.2) d.1 d.2 k).2 = true ∧
        cellAt g (natPos ((pr : Int) + d.1) ((pc : Int) + d.2) d.1 d.2 k).1
          (natPos ((pr : Int) + d.1) ((pc : Int) + d.2) d.1 d.2 k).2 = some AST) ∧
      ((moveDir g pr pc d).isSome = true ↔
        (inBounds g (chainPos ((pr : Int) + d.1) ((pc : Int) + d.2) d.1 d.2 k).1
          (chainPos ((pr : Int) + d.1) ((pc : Int) + d.2) d.1 d.2 k).2 = true ∧
        cellAt g (natPos ((pr : Int) + d.1) ((pc : Int) + d.2) d.1 d.2 k).1
          (natPos ((pr : Int) + d.1) ((pc : Int) + d.2) d.1 d.2 k).2 = some EMPTY)) ∧
      (∀ ng, moveDir g pr pc d = some ng → ∀ q : Pos,
        cellAt ng q.1 q.2 =
          if natPos ((pr : Int) + d.1) ((pc : Int) + d.2) d.1 d.2 0 = q then some PROBE
          else if natPos ((pr : Int) + d.1) ((pc : Int) + d.2) d.1 d.2 k = q
            then some AST
          else if (pr, pc) = q then some EMPTY
          else cellAt g q.1 q.2) ∧
      ∀ ng, moveDir g pr pc d = some ng → ∀ w,
        countCells ng w = countCells g w := by
  obtain ⟨k, hkle, heq, hprops, hmax⟩ :=
    collectChain_eq g d.1 d.2 (chainFuel g) ((pr : Int) + d.1) ((pc : Int) + d.2)
  have hcp0f : (chainPos ((pr : Int) + d.1) ((pc : Int) + d.2) d.1 d.2 0).1
      = (pr : Int) + d.1 := by simp [chainPos]
  have hcp0s : (chainPos ((pr : Int) + d.1) ((pc : Int) + d.2) d.1 d.2 0).2
      = (pc : Int) + d.2 := by simp [chainPos]
  have hk1 : 1 ≤ k := by
    rcases Nat.eq_zero_or_pos k with h0 | h
    · exfalso
      refine hmax (by unfold chainFuel; omega) ?_
      rw [h0]
      refine ⟨by rw [hcp0f, hcp0s]; exact hb, ?_⟩
      rw [hcp0f, hcp0s]
      exact hast
    · exact h
  have hklt : k < chainFuel g :=
    collectChain_lt_chainFuel g d hd _ _ k hkle hprops
  have hmaxr := hmax hklt
  have hlen : (collectChain g d.1 d.2 (chainFuel g) ((pr : Int) + d.1)
      ((pc : Int) + d.2)).length = k := by
    rw [heq]; simp
  have hckf : (pr : Int) + d.1 + (k : Int) * d.1
      = (chainPos ((pr : Int) + d.1) ((pc : Int) + d.2) d.1 d.2 k).1 := rfl
  have hcks : (pc : Int) + d.2 + (k : Int) * d.2
      = (chainPos ((pr : Int) + d.1) ((pc : Int) + d.2) d.1 d.2 k).2 := rfl
  have hform := moveDir_ast g pr pc d hb hast
  rw [hlen] at hform
  rw [hckf, hcks] at hform
  refine ⟨k, hk1, ?_, ?_, ?_, ?_, ?_⟩
  · intro i hi
    exact ⟨(hprops i hi).1, by rw [natPos_fst, natPos_snd]; exact (hprops i hi).2⟩
  · intro hcon
    exact hmaxr ⟨hcon.1, by rw [natPos_fst, natPos_snd] at hcon; exact hcon.2⟩
  · rw [hform]
    by_cases h1 : inBounds g
        (chainPos ((pr : Int) + d.1) ((pc : Int) + d.2) d.1 d.2 k).1
        (chainPos ((pr : Int) + d.1) ((pc : Int) + d.2) d.1 d.2 k).2 = true
    · rw [if_neg (not_not_intro h1)]
      by_cases h2 : cellAt g
          (natPos ((pr : Int) + d.1) ((pc : Int) + d.2) d.1 d.2 k).1
          (natPos ((pr : Int) + d.1) ((pc : Int) + d.2) d.1 d.2 k).2 = some EMPTY
      · rw [if_neg (by rw [natPos_fst, natPos_snd] at h2; simp [h2])]
        simp [h1, h2]
      · rw [if_pos (by rw [natPos_fst, natPos_snd] at h2; simpa using h2)]
        simp only [Option.isSome_none, Bool.false_eq_true, false_iff]
        intro hcon
        exact h2 hcon.2
    · rw [if_pos (by simpa using h1)]
      simp only [Option.isSome_none, Bool.false_eq_true, false_iff]
      intro hcon
      exact h1 hcon.1
  · intro ng hng q
    rw [hform] at hng
    by_cases h1 : inBounds g
        (chainPos ((pr : Int) + d.1) ((pc : Int) + d.2) d.1 d.2 k).1
        (chainPos ((pr : Int) + d.1) ((pc : Int) + d.2) d.1 d.2 k).2 = true
    swap
    · rw [if_pos (by simpa using h1)] at hng
      cases hng
    rw [if_neg (not_not_intro h1)] at hng
    by_cases h2 : cellAt g
        (natPos ((pr : Int) + d.1) ((pc : Int) + d.2) d.1 d.2 k).1
        (natPos ((pr : Int) + d.1) ((pc : Int) + d.2) d.1 d.2 k).2 = some EMPTY
    swap
    · rw [if_pos (by rw [natPos_fst, natPos_snd] at h2; simpa using h2)] at hng
      cases hng
    rw [if_neg (by rw [natPos_fst, natPos_snd] at h2; simp [h2])] at hng
    have hbs : ∀ i, i ≤ k →
        inBounds g (chainPos ((pr : Int) + d.1) ((pc : Int) + d.2) d.1 d.2 i).1
          (chainPos ((pr : Int) + d.1) ((pc : Int) + d.2) d.1 d.2 i).2 = true := by
      intro i hi
      rcases Nat.lt_or_ge i k with h | h
      · exact (hprops i h).1
      · have : i = k := by omega
        rw [this]; exact h1
    have hinj := natPos_inj g ((pr : Int) + d.1) ((pc : Int) + d.2) d hd k hbs
    have hpne := probe_ne_chain g pr pc d hd k hbs
    have hbase : ∀ i, i ≤ k →
        cellAt (setCell g pr pc EMPTY)
          (natPos ((pr : Int) + d.1) ((pc : Int) + d.2) d.1 d.2 i).1
          (natPos ((pr : Int) + d.1) ((pc : Int) + d.2) d.1 d.2 i).2 =
        cellAt g (natPos ((pr : Int) + d.1) ((pc : Int) + d.2) d.1 d.2 i).1
          (natPos ((pr : Int) + d.1) ((pc : Int) + d.2) d.1 d.2 i).2 := by
      intro i hi
      have hpair := cellAt_setCell_pair g (pr, pc)
        (natPos ((pr : Int) + d.1) ((pc : Int) + d.2) d.1 d.2 i) EMPTY
      simp only [] at hpair
      rw [hpair, if_neg (fun hcon => hpne i hi hcon.1)]
    have hshift := shiftChain_spec d.1 d.2 ((pr : Int) + d.1) ((pc : Int) + d.2) k
      (setCell g pr pc EMPTY) hk1
      (by
        intro i hi
        rw [hbase i hi]
        rcases Nat.lt_or_ge i k with h | h
        · rw [natPos_fst, natPos_snd, (hprops i h).2]; rfl
        · have : i = k := by omega
          rw [this, h2]; rfl)
      (by
        intro i h1i hik
        rw [hbase i (by omega), natPos_fst, natPos_snd]
        exact (hprops i hik).2)
      hinj
    have hng2 : setCell
        (shiftChain (setCell g pr pc EMPTY) d.1 d.2
          (collectChain g d.1 d.2 (chainFuel g) ((pr : Int) + d.1) ((pc : Int) + d.2)))
        ((pr : Int) + d.1).toNat ((pc : Int) + d.2).toNat PROBE = ng :=
      Option.some.inj hng
    subst hng2
    rw [heq]
    have e0f : ((pr : Int) + d.1).toNat
        = (natPos ((pr : Int) + d.1) ((pc : Int) + d.2) d.1 d.2 0).1 := by
      rw [natPos_fst, hcp0f]
    have e0s : ((pc : Int) + d.2).toNat
        = (natPos ((pr : Int) + d.1) ((pc : Int) + d.2) d.1 d.2 0).2 := by
      rw [natPos_snd, hcp0s]
    rw [e0f, e0s]
    have houter := cellAt_setCell_pair
      (shiftChain (setCell g pr pc EMPTY) d.1 d.2
        ((List.range k).map (chainPos ((pr : Int) + d.1) ((pc : Int) + d.2) d.1 d.2)))
      (natPos ((pr : Int) + d.1) ((pc : Int) + d.2) d.1 d.2 0) q PROBE
    have hsme : (cellAt
        (shiftChain (setCell g pr pc EMPTY) d.1 d.2
          ((List.range k).map (chainPos ((pr : Int) + d.1) ((pc : Int) + d.2) d.1 d.2)))
        (natPos ((pr : Int) + d.1) ((pc : Int) + d.2) d.1 d.2 0).1
        (natPos ((pr : Int) + d.1) ((pc : Int) + d.2) d.1 d.2 0).2).isSome = true := by
      rw [hshift (natPos ((pr : Int) + d.1) ((pc : Int) + d.2) d.1 d.2 0)]
      rw [if_neg (fun hcon =>
        hinj k 0 (by omega) (by omega) (by omega) hcon), if_pos rfl]
      rfl
    rw [houter]
    by_cases hq0 : natPos ((pr : Int) + d.1) ((pc : Int) + d.2) d.1 d.2 0 = q
    · rw [if_pos ⟨hq0, hsme⟩, if_pos hq0]
    · rw [if_neg (fun hcon => hq0 hcon.1), if_neg hq0, hshift q]
      by_cases hqk : natPos ((pr : Int) + d.1) ((pc : Int) + d.2) d.1 d.2 k = q
      · rw [if_pos hqk, if_pos hqk]
      · rw [if_neg hqk, if_neg hq0, if_neg hqk]
        have hpp := cellAt_setCell_pair g (pr, pc) q EMPTY
        simp only [] at hpp
        rw [hpp]
        by_cases hq2 : ((pr, pc) : Pos) = q
        · rw [if_pos ⟨hq2, by rw [hp]; rfl⟩, if_pos hq2]
        · rw [if_neg (fun hcon => hq2 hcon.1), if_neg hq2]
  · intro ng hng w
    rw [hform] at hng
    by_cases h1 : inBounds g
        (chainPos ((pr : Int) + d.1) ((pc : Int) + d.2) d.1 d.2 k).1
        (chainPos ((pr : Int) + d.1) ((pc : Int) + d.2) d.1 d.2 k).2 = true
    swap
    · rw [if_pos (by simpa using h1)] at hng
      cases hng
    rw [if_neg (not_not_intro h1)] at hng
    by_cases h2 : cellAt g
        (natPos ((pr : Int) + d.1) ((pc : Int) + d.2) d.1 d.2 k).1
        (natPos ((pr : Int) + d.1) ((pc : Int) + d.2) d.1 d.2 k).2 = some EMPTY
    swap
    · rw [if_pos (by rw [natPos_fst, natPos_snd] at h2; simpa using h2)] at hng
      cases hng
    rw [if_neg (by rw [natPos_fst, natPos_snd] at h2; simp [h2])] at hng
    have hbs : ∀ i, i ≤ k →
        inBounds g (chainPos ((pr : Int) + d.1) ((pc : Int) + d.2) d.1 d.2 i).1
          (chainPos ((pr : Int) + d.1) ((pc : Int) + d.2) d.1 d.2 i).2 = true := by
      intro i hi
      rcases Nat.lt_or_ge i k with h | h
      · exact (hprops i h).1
      · have : i = k := by omega
        rw [this]; exact h1
    have hinj := natPos_inj g ((pr : Int) + d.1) ((pc : Int) + d.2) d hd k hbs
    have hpne := probe_ne_chain g pr pc d hd k hbs
    have hbase : ∀ i, i ≤ k →
        cellAt (setCell g pr pc EMPTY)
          (natPos ((pr : Int) + d.1) ((pc : Int) + d.2) d.1 d.2 i).1
          (natPos ((pr : Int) + d.1) ((pc : Int) + d.2) d.1 d.2 i).2 =
        cellAt g (natPos ((pr : Int) + d.1) ((pc : Int) + d.2) d.1 d.2 i).1
          (natPos ((pr : Int) + d.1) ((pc : Int) + d.2) d.1 d.2 i).2 := by
      intro i hi
      have hpair := cellAt_setCell_pair g (pr, pc)
        (natPos ((pr : Int) + d.1) ((pc : Int) + d.2) d.1 d.2 i) EMPTY
      simp only [] at hpair
      rw [hpair, if_neg (fun hcon => hpne i hi hcon.1)]
    have hshift := shiftChain_spec d.1 d.2 ((pr : Int) + d.1) ((pc : Int) + d.2) k
      (setCell g pr pc EMPTY) hk1
      (by
        intro i hi
        rw [hbase i hi]
        rcases Nat.lt_or_ge i k with h | h
        · rw [natPos_fst, natPos_snd, (hprops i h).2]; rfl
        · have : i = k := by omega
          rw [this, h2]; rfl)
      (by
        intro i h1i hik
        rw [hbase i (by omega), natPos_fst, natPos_snd]
        exact (hprops i hik).2)
      hinj
    have hng2 : setCell
        (shiftChain (setCell g pr pc EMPTY) d.1 d.2
          (collectChain g d.1 d.2 (chainFuel g) ((pr : Int) + d.1) ((pc : Int) + d.2)))
        ((pr : Int) + d.1).toNat ((pc : Int) + d.2).toNat PROBE = ng :=
      Option.some.inj hng
    subst hng2
    rw [heq]
    have e0f : ((pr : Int) + d.1).toNat
        = (natPos ((pr : Int) + d.1) ((pc : Int) + d.2) d.1 d.2 0).1 := by
      rw [natPos_fst, hcp0f]
    have e0s : ((pc : Int) + d.2).toNat
        = (natPos ((pr : Int) + d.1) ((pc : Int) + d.2) d.1 d.2 0).2 := by
      rw [natPos_snd, hcp0s]
    rw [e0f, e0s]
    have h0old : cellAt
        (shiftChain (setCell g pr pc EMPTY) d.1 d.2
          ((List.range k).map (chainPos ((pr : Int) + d.1) ((pc : Int) + d.2) d.1 d.2)))
        (natPos ((pr : Int) + d.1) ((pc : Int) + d.2) d.1 d.2 0).1
        (natPos ((pr : Int) + d.1) ((pc : Int) + d.2) d.1 d.2 0).2 = some EMPTY := by
      rw [hshift (natPos ((pr : Int) + d.1) ((pc : Int) + d.2) d.1 d.2 0)]
      rw [if_neg (fun hcon =>
        hinj k 0 (by omega) (by omega) (by omega) hcon), if_pos rfl]
    have h1c := countCells_setCell
      (shiftChain (setCell g pr pc EMPTY) d.1 d.2
        ((List.range k).map (chainPos ((pr : Int) + d.1) ((pc : Int) + d.2) d.1 d.2)))
      (natPos ((pr : Int) + d.1) ((pc : Int) + d.2) d.1 d.2 0).1
      (natPos ((pr : Int) + d.1) ((pc : Int) + d.2) d.1 d.2 0).2 EMPTY PROBE h0old w
    have h3c := countCells_shiftChain d.1 d.2 ((pr : Int) + d.1) ((pc : Int) + d.2) k
      (setCell g pr pc EMPTY) hk1
      (by
        intro i hi
        rw [hbase i (by omega), natPos_fst, natPos_snd]
        exact (hprops i hi).2)
      (by rw [hbase k le_rfl]; exact h2)
      hinj w
    have h2c := countCells_setCell g pr pc PROBE EMPTY hp w
    have hfin : countCells
        (setCell
          (shiftChain (setCell g pr pc EMPTY) d.1 d.2
            ((List.range k).map (chainPos ((pr : Int) + d.1) ((pc : Int) + d.2) d.1 d.2)))
          (natPos ((pr : Int) + d.1) ((pc : Int) + d.2) d.1 d.2 0).1
          (natPos ((pr : Int) + d.1) ((pc : Int) + d.2) d.1 d.2 0).2 PROBE) w
        + (if EMPTY = w then 1 else 0)
        = countCells g w + (if EMPTY = w then 1 else 0) := by
      rw [h1c, h3c]
      exact h2c
    exact Nat.add_right_cancel hfin

/-! ## moveGen structure -/

theorem moveGen_eq (g : Grid) (pr pc : Nat) (h : findCell g PROBE = some (pr, pc)) :
    moveGen g = DIRS.filterMap (moveDir g pr pc) := by
  simp [moveGen, h]

theorem mem_moveGen (g ng : Grid) (pr pc : Nat)
    (h : findCell g PROBE = some (pr, pc)) :
    ng ∈ moveGen g ↔ ∃ d ∈ DIRS, moveDir g pr pc d = some ng := by
  rw [moveGen_eq g pr pc h, List.mem_filterMap]

theorem moveGen_length_le (g : Grid) : (moveGen g).length ≤ 4 := by
  unfold moveGen
  rcases findCell g PROBE with _ | ⟨pr, pc⟩
  · simp
  · calc (DIRS.filterMap (moveDir g pr pc)).length
        ≤ DIRS.length := List.length_filterMap_le _ _
    _ = 4 := rfl

/-- Any emitted successor comes from an in-bounds adjacent cell that is either
Empty/Dock (simple step) or an obstacle (push). -/
theorem moveDir_some_cases (g : Grid) (pr pc : Nat) (d : Int × Int) (ng : Grid)
    (h : moveDir g pr pc d = some ng) :
    inBounds g ((pr : Int) + d.1) ((pc : Int) + d.2) = true ∧
    ∃ v, cellAt g ((pr : Int) + d.1).toNat ((pc : Int) + d.2).toNat = some v ∧
      (((v = EMPTY ∨ v = DOCK) ∧
        ng = setCell (setCell g pr pc EMPTY)
          ((pr : Int) + d.1).toNat ((pc : Int) + d.2).toNat PROBE) ∨ v = AST) := by
  by_cases hb : inBounds g ((pr : Int) + d.1) ((pc : Int) + d.2) = true
  · refine ⟨hb, ?_⟩
    rcases hv : cellAt g ((pr : Int) + d.1).toNat ((pc : Int) + d.2).toNat with _ | v
    · rw [moveDir, if_neg (not_not_intro hb)] at h
      simp only [hv] at h
      cases h
    · refine ⟨v, rfl, ?_⟩
      rw [moveDir, if_neg (not_not_intro hb)] at h
      simp only [hv] at h
      by_cases hw : v = WALL
      · rw [if_pos hw] at h; cases h
      rw [if_neg hw] at h
      by_cases hE : v = EMPTY ∨ v = DOCK
      · rw [if_pos hE] at h
        exact Or.inl ⟨hE, (Option.some.inj h).symm⟩
      rw [if_neg hE] at h
      by_cases hA : v = AST
      · exact Or.inr hA
      · rw [if_neg hA] at h; cases h
  · rw [moveDir_oob g pr pc d (by simpa using hb)] at h
    cases h

/-- Every emitted successor preserves the Probe count and the Obstacle count,
and leaves every Wall cell untouched. -/
theorem moveGen_conservation (g ng : Grid) (hmem : ng ∈ moveGen g) :
    countCells ng PROBE = countCells g PROBE ∧
    countCells ng AST = countCells g AST ∧
    ∀ q : Pos, cellAt g q.1 q.2 = some WALL → cellAt ng q.1 q.2 = some WALL := by
  rcases hfc : findCell g PROBE with _ | ⟨pr, pc⟩
  · rw [moveGen, hfc] at hmem; cases hmem
  have hp : cellAt g pr pc = some PROBE := findCell_spec g PROBE (pr, pc) hfc
  obtain ⟨d, hd, hmd⟩ := (mem_moveGen g ng pr pc hfc).mp hmem
  obtain ⟨hb, v, hv, hcase⟩ := moveDir_some_cases g pr pc d ng hmd
  rcases hcase with ⟨hvE, hng⟩ | hvA
  · -- simple step onto Empty or Dock
    subst hng
    have hpne := probe_ne_step pr pc d hd hb
    have hbase : ∀ u, countCells (setCell g pr pc EMPTY) u
        + (if PROBE = u then 1 else 0) = countCells g u + (if EMPTY = u then 1 else 0) :=
      fun u => countCells_setCell g pr pc PROBE EMPTY hp u
    have hmid : cellAt (setCell g pr pc EMPTY)
        ((pr : Int) + d.1).toNat ((pc : Int) + d.2).toNat = some v := by
      have hpair := cellAt_setCell_pair g (pr, pc)
        ((((pr : Int) + d.1).toNat, ((pc : Int) + d.2).toNat) : Pos) EMPTY
      simp only [] at hpair
      rw [hpair, if_neg (fun hcon => hpne hcon.1)]
      exact hv
    have htop : ∀ u, countCells
        (setCell (setCell g pr pc EMPTY)
          ((pr : Int) + d.1).toNat ((pc : Int) + d.2).toNat PROBE) u
        + (if v = u then 1 else 0) =
        countCells (setCell g pr pc EMPTY) u + (if PROBE = u then 1 else 0) :=
      fun u => countCells_setCell _ _ _ v PROBE hmid u
    refine ⟨?_, ?_, ?_⟩
    · have h1 := htop PROBE
      have h2 := hbase PROBE
      rcases hvE with h | h <;> subst h <;>
        (norm_num [PROBE, EMPTY, DOCK] at h1 h2 ⊢ ; omega)
    · have h1 := htop AST
      have h2 := hbase AST
      rcases hvE with h | h <;> subst h <;>
        (norm_num [PROBE, EMPTY, DOCK, AST] at h1 h2 ⊢ ; omega)
    · intro q hq
      rw [step_cells g pr pc d hd hp hb (by rw [hv]; rfl) q]
      rw [if_neg (by
        intro hcon
        rw [← hcon] at hq
        simp only [] at hq
        rw [hq] at hv
        rcases hvE with h | h <;> subst h <;> simp [WALL, EMPTY, DOCK] at hv)]
      rw [if_neg (by
        intro hcon
        rw [← hcon] at hq
        simp only [] at hq
        rw [hq] at hp
        simp [WALL, PROBE] at hp)]
      exact hq
  · -- push
    subst hvA
    obtain ⟨k, hk1, hprops, hmaxr, hiff, hcells, hcounts⟩ :=
      moveDir_push_spec g pr pc d hd hp hb hv
    have hland := (hiff.mp (by rw [hmd]; rfl)).2
    refine ⟨hcounts ng hmd PROBE, hcounts ng hmd AST, ?_⟩
    intro q hq
    rw [hcells ng hmd q]
    rw [if_neg (by
      intro hcon
      have h0 := (hprops 0 (by omega)).2
      rw [hcon, hq] at h0
      simp [WALL, AST] at h0)]
    rw [if_neg (by
      intro hcon
      rw [hcon, hq] at hland
      simp [WALL, EMPTY] at hland)]
    rw [if_neg (by
      intro hcon
      have hp2 := hp
      rw [show pr = ((pr, pc) : Pos).1 from rfl, show pc = ((pr, pc) : Pos).2 from rfl,
        hcon] at hp2
      rw [hq] at hp2
      simp [WALL, PROBE] at hp2)]
    exact hq

/-! # Claim theorems: the move generator -/

/-- **C2**: for every configuration with a Probe cell and every direction whose
adjacent cell is an Obstacle, `moveGen` emits a successor for that direction
(via its per-direction case `moveDir`) iff the cell immediately past the
maximal contiguous run of obstacles (`natPos … k`, where the run occupies
indices `0 … k-1` and is maximal) is inside the grid bounds and Empty; in the
emitted successor every Obstacle of the run has shifted one cell in direction
`d` (the landing cell gains an Obstacle, interior run cells keep theirs, and
the nearest run cell is vacated), the probe's old cell is Empty, and the Probe
occupies the cell vacated by the nearest obstacle. -/
theorem C2_push_semantics (g : Grid) (pr pc : Nat) (d : Int × Int)
    (hfc : findCell g PROBE = some (pr, pc)) (hd : d ∈ DIRS)
    (hb : inBounds g ((pr : Int) + d.1) ((pc : Int) + d.2) = true)
    (hast : cellAt g ((pr : Int) + d.1).toNat ((pc : Int) + d.2).toNat = some AST) :
    ∃ k, 1 ≤ k ∧
      (∀ i, i < k →
        inBounds g (chainPos ((pr : Int) + d.1) ((pc : Int) + d.2) d.1 d.2 i).1
          (chainPos ((pr : Int) + d.1) ((pc : Int) + d.2) d.1 d.2 i).2 = true ∧
        cellAt g (natPos ((pr : Int) + d.1) ((pc : Int) + d.2) d.1 d.2 i).1
          (natPos ((pr : Int) + d.1) ((pc : Int) + d.2) d.1 d.2 i).2 = some AST) ∧
      ¬(inBounds g (chainPos ((pr : Int) + d.1) ((pc : Int) + d.2) d.1 d.2 k).1
          (chainPos ((pr : Int) + d.1) ((pc : Int) + d.2) d.1 d.2 k).2 = true ∧
        cellAt g (natPos ((pr : Int) + d.1) ((pc : Int) + d.2) d.1 d.2 k).1
          (natPos ((pr : Int) + d.1) ((pc : Int) + d.2) d.1 d.2 k).2 = some AST) ∧
      ((moveDir g pr pc d).isSome = true ↔
        (inBounds g (chainPos ((pr : Int) + d.1) ((pc : Int) + d.2) d.1 d.2 k).1
          (chainPos ((pr : Int) + d.1) ((pc : Int) + d.2) d.1 d.2 k).2 = true ∧
        cellAt g (natPos ((pr : Int) + d.1) ((pc : Int) + d.2) d.1 d.2 k).1
          (natPos ((pr : Int) + d.1) ((pc : Int) + d.2) d.1 d.2 k).2 = some EMPTY)) ∧
      (∀ ng, moveDir g pr pc d = some ng → ng ∈ moveGen g ∧ ∀ q : Pos,
        cellAt ng q.1 q.2 =
          if natPos ((pr : Int) + d.1) ((pc : Int) + d.2) d.1 d.2 0 = q then some PROBE
          else if natPos ((pr : Int) + d.1) ((pc : Int) + d.2) d.1 d.2 k = q
            then some AST
          else if (pr, pc) = q then some EMPTY
          else cellAt g q.1 q.2) := by
  have hp : cellAt g pr pc = some PROBE := findCell_spec g PROBE (pr, pc) hfc
  obtain ⟨k, hk1, hprops, hmaxr, hiff, hcells, _⟩ :=
    moveDir_push_spec g pr pc d hd hp hb hast
  exact ⟨k, hk1, hprops, hmaxr, hiff, fun ng hng =>
    ⟨(mem_moveGen g ng pr pc hfc).mpr ⟨d, hd, hng⟩, hcells ng hng⟩⟩

theorem C2_push_semantics_witness :
    ∃ k, 1 ≤ k ∧
      (∀ i, i < k →
        inBounds [[3,2,0]] (chainPos ((0 : Int) + (0,1).1) ((0 : Int) + (0,1).2)
          (0,1).1 (0,1).2 i).1
          (chainPos ((0 : Int) + (0,1).1) ((0 : Int) + (0,1).2) (0,1).1 (0,1).2 i).2
          = true ∧
        cellAt [[3,2,0]] (natPos ((0 : Int) + (0,1).1) ((0 : Int) + (0,1).2)
          (0,1).1 (0,1).2 i).1
          (natPos ((0 : Int) + (0,1).1) ((0 : Int) + (0,1).2) (0,1).1 (0,1).2 i).2
          = some AST) ∧
      ¬(inBounds [[3,2,0]] (chainPos ((0 : Int) + (0,1).1) ((0 : Int) + (0,1).2)
          (0,1).1 (0,1).2 k).1
          (chainPos ((0 : Int) + (0,1).1) ((0 : Int) + (0,1).2) (0,1).1 (0,1).2 k).2
          = true ∧
        cellAt [[3,2,0]] (natPos ((0 : Int) + (0,1).1) ((0 : Int) + (0,1).2)
          (0,1).1 (0,1).2 k).1
          (natPos ((0 : Int) + (0,1).1) ((0 : Int) + (0,1).2) (0,1).1 (0,1).2 k).2
          = some AST) ∧
      ((moveDir [[3,2,0]] 0 0 (0,1)).isSome = true ↔
        (inBounds [[3,2,0]] (chainPos ((0 : Int) + (0,1).1) ((0 : Int) + (0,1).2)
          (0,1).1 (0,1).2 k).1
          (chainPos ((0 : Int) + (0,1).1) ((0 : Int) + (0,1).2) (0,1).1 (0,1).2 k).2
          = true ∧
        cellAt [[3,2,0]] (natPos ((0 : Int) + (0,1).1) ((0 : Int) + (0,1).2)
          (0,1).1 (0,1).2 k).1
          (natPos ((0 : Int) + (0,1).1) ((0 : Int) + (0,1).2) (0,1).1 (0,1).2 k).2
          = some EMPTY)) ∧
      (∀ ng, moveDir [[3,2,0]] 0 0 (0,1) = some ng →
        ng ∈ moveGen [[3,2,0]] ∧ ∀ q : Pos,
        cellAt ng q.1 q.2 =
          if natPos ((0 : Int) + (0,1).1) ((0 : Int) + (0,1).2) (0,1).1 (0,1).2 0 = q
            then some PROBE
          else if natPos ((0 : Int) + (0,1).1) ((0 : Int) + (0,1).2) (0,1).1 (0,1).2 k
            = q then some AST
          else if (0, 0) = q then some EMPTY
          else cellAt [[3,2,0]] q.1 q.2) :=
  C2_push_semantics [[3,2,0]] 0 0 (0,1) (by decide) (by decide) (by decide) (by decide)

/-- **C3**: for a configuration with a Probe cell and any direction: if the
adjacent cell is Empty or Dock, `moveGen` emits exactly one successor for that
direction, in which the probe's old cell is Empty and the adjacent cell is
Probe (the Dock tag is overwritten); if the adjacent cell is out of bounds or
a Wall, no successor is emitted for that direction. -/
theorem C3_step_semantics (g : Grid) (pr pc : Nat) (d : Int × Int)
    (hfc : findCell g PROBE = some (pr, pc)) (hd : d ∈ DIRS) :
    (∀ v, inBounds g ((pr : Int) + d.1) ((pc : Int) + d.2) = true →
      cellAt g ((pr : Int) + d.1).toNat ((pc : Int) + d.2).toNat = some v →
      (v = EMPTY ∨ v = DOCK) →
      moveDir g pr pc d = some (setCell (setCell g pr pc EMPTY)
        ((pr : Int) + d.1).toNat ((pc : Int) + d.2).toNat PROBE) ∧
      setCell (setCell g pr pc EMPTY)
        ((pr : Int) + d.1).toNat ((pc : Int) + d.2).toNat PROBE ∈ moveGen g ∧
      (∀ q : Pos, cellAt (setCell (setCell g pr pc EMPTY)
          ((pr : Int) + d.1).toNat ((pc : Int) + d.2).toNat PROBE) q.1 q.2 =
        if (((pr : Int) + d.1).toNat, ((pc : Int) + d.2).toNat) = q then some PROBE
        else if (pr, pc) = q then some EMPTY
        else cellAt g q.1 q.2)) ∧
    (inBounds g ((pr : Int) + d.1) ((pc : Int) + d.2) = false →
      moveDir g pr pc d = none) ∧
    (inBounds g ((pr : Int) + d.1) ((pc : Int) + d.2) = true →
      cellAt g ((pr : Int) + d.1).toNat ((pc : Int) + d.2).toNat = some WALL →
      moveDir g pr pc d = none) := by
  have hp : cellAt g pr pc = some PROBE := findCell_spec g PROBE (pr, pc) hfc
  refine ⟨?_, ?_, ?_⟩
  · intro v hb hv hvE
    have hsome := moveDir_step g pr pc d v hb hv hvE
    exact ⟨hsome, (mem_moveGen _ _ pr pc hfc).mpr ⟨d, hd, hsome⟩,
      step_cells g pr pc d hd hp hb (by rw [hv]; rfl)⟩
  · exact moveDir_oob g pr pc d
  · exact moveDir_wall g pr pc d

theorem C3_step_semantics_witness :
    moveDir [[3,4]] 0 0 (0,1) = some (setCell (setCell [[3,4]] 0 0 EMPTY)
        (((0 : Nat) : Int) + (0,1).1).toNat (((0 : Nat) : Int) + (0,1).2).toNat PROBE) ∧
    moveDir [[3,1]] 0 0 (0,1) = none ∧
    moveDir [[3,4]] 0 0 (0,-1) = none :=
  ⟨((C3_step_semantics [[3,4]] 0 0 (0,1) (by decide) (by decide)).1 DOCK
      (by decide) (by decide) (Or.inr rfl)).1,
   (C3_step_semantics [[3,1]] 0 0 (0,1) (by decide) (by decide)).2.2
      (by decide) (by decide),
   (C3_step_semantics [[3,4]] 0 0 (0,-1) (by decide) (by decide)).2.1 (by decide)⟩

/-- **C4**: every successor of a configuration with exactly one Probe cell has
exactly one Probe cell and the same number of Obstacle cells, and every Wall
cell of the predecessor is unchanged. -/
theorem C4_conservation (g ng : Grid) (h1 : countCells g PROBE = 1)
    (hmem : ng ∈ moveGen g) :
    countCells ng PROBE = 1 ∧ countCells ng AST = countCells g AST ∧
    ∀ r c : Nat, cellAt g r c = some WALL → cellAt ng r c = some WALL := by
  obtain ⟨ha, hb, hc⟩ := moveGen_conservation g ng hmem
  exact ⟨by rw [ha, h1], hb, fun r c => hc (r, c)⟩

theorem C4_conservation_witness :
    countCells [[1,0,0],[3,2,0]] PROBE = 1 ∧
    (countCells [[1,0,0],[0,3,2]] PROBE = 1 ∧
      countCells [[1,0,0],[0,3,2]] AST = countCells [[1,0,0],[3,2,0]] AST ∧
      ∀ r c : Nat, cellAt [[1,0,0],[3,2,0]] r c = some WALL →
        cellAt [[1,0,0],[0,3,2]] r c = some WALL) :=
  ⟨by decide,
   C4_conservation [[1,0,0],[3,2,0]] [[1,0,0],[0,3,2]] (by decide) (by decide)⟩

/-- **C6** (amended): along any sequence of `moveGen` steps the configuration
keeps exactly one Probe cell; and as long as the dock cell still carries its
Dock tag, no successor ever places an Obstacle there (a push lands only on an
Empty cell, and the Dock tag is consumed only by the Probe).  The original
claim — that no reachable configuration has an Obstacle on the recorded dock
position — fails once the probe has consumed the Dock tag and moved off; see
the counterexample. -/
theorem C6_dock_invariant (g0 h : Grid)
    (hreach : Relation.ReflTransGen StepRel g0 h)
    (hp : countCells g0 PROBE = 1) (dp : Pos) :
    countCells h PROBE = 1 ∧
    (cellAt h dp.1 dp.2 = some DOCK →
      ∀ ng ∈ moveGen h, cellAt ng dp.1 dp.2 ≠ some AST) := by
  constructor
  · induction hreach with
    | refl => exact hp
    | tail hsteps hstep ih =>
      rw [(moveGen_conservation _ _ hstep).1]
      exact ih
  · intro hdock ng hmem hcon
    rcases hfc : findCell h PROBE with _ | ⟨pr, pc⟩
    · rw [moveGen, hfc] at hmem; cases hmem
    have hpr : cellAt h pr pc = some PROBE := findCell_spec h PROBE (pr, pc) hfc
    obtain ⟨d, hd, hmd⟩ := (mem_moveGen h ng pr pc hfc).mp hmem
    obtain ⟨hb, v, hv, hcase⟩ := moveDir_some_cases h pr pc d ng hmd
    rcases hcase with ⟨hvE, hng⟩ | hvA
    · subst hng
      rw [step_cells h pr pc d hd hpr hb (by rw [hv]; rfl) dp] at hcon
      by_cases h1 : (((pr : Int) + d.1).toNat, ((pc : Int) + d.2).toNat) = dp
      · rw [if_pos h1] at hcon
        simp [AST, PROBE] at hcon
      · rw [if_neg h1] at hcon
        by_cases h2 : ((pr, pc) : Pos) = dp
        · rw [if_pos h2] at hcon
          simp [AST, EMPTY] at hcon
        · rw [if_neg h2] at hcon
          rw [hcon] at hdock
          simp [AST, DOCK] at hdock
    · subst hvA
      obtain ⟨k, hk1, hprops, hmaxr, hiff, hcells, _⟩ :=
        moveDir_push_spec h pr pc d hd hpr hb hv
      have hland := (hiff.mp (by rw [hmd]; rfl)).2
      rw [hcells ng hmd dp] at hcon
      by_cases h1 : natPos ((pr : Int) + d.1) ((pc : Int) + d.2) d.1 d.2 0 = dp
      · rw [if_pos h1] at hcon
        simp [AST, PROBE] at hcon
      · rw [if_neg h1] at hcon
        by_cases h2 : natPos ((pr : Int) + d.1) ((pc : Int) + d.2) d.1 d.2 k = dp
        · rw [h2] at hland
          rw [hland] at hdock
          simp [EMPTY, DOCK] at hdock
        · rw [if_neg h2] at hcon
          by_cases h3 : ((pr, pc) : Pos) = dp
          · rw [if_pos h3] at hcon
            simp [AST, EMPTY] at hcon
          · rw [if_neg h3] at hcon
            rw [hcon] at hdock
            simp [AST, DOCK] at hdock

theorem C6_dock_invariant_witness :
    countCells ([[3,4,0],[0,0,0]] : Grid) PROBE = 1 ∧
    (countCells ([[0,3,0],[0,0,0]] : Grid) PROBE = 1 ∧
    (cellAt ([[0,3,0],[0,0,0]] : Grid) 0 1 = some DOCK →
      ∀ ng ∈ moveGen [[0,3,0],[0,0,0]], cellAt ng 0 1 ≠ some AST)) :=
  ⟨by decide,
   C6_dock_invariant [[3,4,0],[0,0,0]] [[0,3,0],[0,0,0]]
    (Relation.ReflTransGen.single (by unfold StepRel; decide)) (by decide) (0, 1)⟩

/-- Counterexample to **C6** as stated: from a valid start (one Probe, one
Dock at `(0,1)`, no obstacle on the dock) a sequence of eight legal `moveGen`
steps reaches a configuration with an Obstacle on the recorded dock cell —
the probe consumes the Dock tag, steps away (leaving Empty), circles below
the obstacle and pushes it up twice onto the vacated dock cell. -/
theorem C6_reachability_cex :
    countCells ([[3,4,0],[0,0,0],[0,2,0],[0,0,0]] : Grid) PROBE = 1 ∧
    countCells ([[3,4,0],[0,0,0],[0,2,0],[0,0,0]] : Grid) DOCK = 1 ∧
    findCell ([[3,4,0],[0,0,0],[0,2,0],[0,0,0]] : Grid) DOCK = some (0, 1) ∧
    cellAt ([[3,4,0],[0,0,0],[0,2,0],[0,0,0]] : Grid) 0 1 ≠ some AST ∧
    Relation.ReflTransGen StepRel
      [[3,4,0],[0,0,0],[0,2,0],[0,0,0]]
      [[0,2,0],[0,3,0],[0,0,0],[0,0,0]] ∧
    cellAt ([[0,2,0],[0,3,0],[0,0,0],[0,0,0]] : Grid) 0 1 = some AST := by
  refine ⟨by decide, by decide, by decide, by decide, ?_, by decide⟩
  have s1 : StepRel [[3,4,0],[0,0,0],[0,2,0],[0,0,0]]
      [[0,3,0],[0,0,0],[0,2,0],[0,0,0]] := by unfold StepRel; decide
  have s2 : StepRel [[0,3,0],[0,0,0],[0,2,0],[0,0,0]]
      [[0,0,0],[0,3,0],[0,2,0],[0,0,0]] := by unfold StepRel; decide
  have s3 : StepRel [[0,0,0],[0,3,0],[0,2,0],[0,0,0]]
      [[0,0,0],[3,0,0],[0,2,0],[0,0,0]] := by unfold StepRel; decide
  have s4 : StepRel [[0,0,0],[3,0,0],[0,2,0],[0,0,0]]
      [[0,0,0],[0,0,0],[3,2,0],[0,0,0]] := by unfold StepRel; decide
  have s5 : StepRel [[0,0,0],[0,0,0],[3,2,0],[0,0,0]]
      [[0,0,0],[0,0,0],[0,2,0],[3,0,0]] := by unfold StepRel; decide
  have s6 : StepRel [[0,0,0],[0,0,0],[0,2,0],[3,0,0]]
      [[0,0,0],[0,0,0],[0,2,0],[0,3,0]] := by unfold StepRel; decide
  have s7 : StepRel [[0,0,0],[0,0,0],[0,2,0],[0,3,0]]
      [[0,0,0],[0,2,0],[0,3,0],[0,0,0]] := by unfold StepRel; decide
  have s8 : StepRel [[0,0,0],[0,2,0],[0,3,0],[0,0,0]]
      [[0,2,0],[0,3,0],[0,0,0],[0,0,0]] := by unfold StepRel; decide
  exact Relation.ReflTransGen.head s1 (Relation.ReflTransGen.head s2
    (Relation.ReflTransGen.head s3 (Relation.ReflTransGen.head s4
    (Relation.ReflTransGen.head s5 (Relation.ReflTransGen.head s6
    (Relation.ReflTransGen.head s7 (Relation.ReflTransGen.single s8)))))))

/-! # Claim theorems: malformed starts -/

/-- **C5** (amended): for every start configuration in which `findCell` finds
no Probe cell or no Dock cell, each of the three engines returns no solution
path, a states-expanded count of zero and an empty visited trace, without
entering its main loop.  (Uniqueness is *not* checked: with several Probe or
Dock cells the engines run normally on the first one in row-major order —
see the counterexample.) -/
theorem C5_malformed_start (start : Grid) (m1 m2 m3 : Nat)
    (h : findCell start PROBE = none ∨ findCell start DOCK = none) :
    dfsSolve start m1 = .empty 0 [] ∧ bfsSolve start m2 = .empty 0 [] ∧
    bestFirstSolve start m3 = .empty 0 [] := by
  rcases h with h | h
  · refine ⟨?_, ?_, ?_⟩
    · unfold dfsSolve
      rcases hd : findCell start DOCK with _ | dp <;> simp [h]
    · unfold bfsSolve
      rcases hd : findCell start DOCK with _ | dp <;> simp [h]
    · unfold bestFirstSolve
      rcases hd : findCell start DOCK with _ | dp
      · rfl
      · simp only []
        unfold pushPQ
        rw [h]
        show bestLoop dp m3 (5 * (m3 + 1) + 2) [] [] [(start, none)] 0 [] = .empty 0 []
        rw [show 5 * (m3 + 1) + 2 = (5 * (m3 + 1) + 1) + 1 from rfl]
        rfl
  · exact ⟨by unfold dfsSolve; rw [h], by unfold bfsSolve; rw [h],
      by unfold bestFirstSolve; rw [h]⟩

theorem C5_malformed_start_witness :
    dfsSolve ([[0,4]] : Grid) 7 = .empty 0 [] ∧ bfsSolve ([[0,4]] : Grid) 7 = .empty 0 [] ∧
    bestFirstSolve ([[0,4]] : Grid) 7 = .empty 0 [] :=
  C5_malformed_start [[0,4]] 7 7 7 (Or.inl (by decide))

/-- Counterexample to **C5** as stated: `[[3,3,4]]` has two Probe cells, so it
"lacks a unique Probe cell", yet `dfsSolve` does not fail with zero
expansions — it runs the search on the first probe and reports one expanded
state.  (The guards test only presence via `findCell`, not uniqueness.) -/
theorem C5_uniqueness_cex :
    countCells ([[3,3,4]] : Grid) PROBE = 2 ∧
    dfsSolve ([[3,3,4]] : Grid) 120000 = .empty 1 [(0, 0)] ∧
    bfsSolve ([[3,3,4]] : Grid) 150000 = .empty 1 [(0, 0)] ∧
    bestFirstSolve ([[3,3,4]] : Grid) 200000 = .empty 1 [(0, 0)] := by
  refine ⟨by decide, by decide, by decide, by decide⟩

/-! # Loop termination and ceiling accounting -/

theorem dfsFold_stack_length (g : Grid) (ms : List Grid) :
    ∀ (st : List Grid) (pm : ParentMap),
      ((ms.foldl (fun (acc : List Grid × ParentMap) ng =>
        (ng :: acc.1,
         if lookupParent acc.2 ng = none then acc.2 ++ [(ng, some g)] else acc.2))
        (st, pm)).1).length = st.length + ms.length := by
  induction ms with
  | nil => intro st pm; simp
  | cons m rest ih =>
    intro st pm
    rw [List.foldl_cons]
    rw [ih (m :: st) _]
    simp
    omega

theorem pqInsert_length (x : Grid × Nat) (l : List (Grid × Nat)) :
    (pqInsert x l).length = l.length + 1 := by
  induction l with
  | nil => rfl
  | cons y ys ih =>
    rw [pqInsert]
    by_cases h : y.2 ≤ x.2
    · rw [if_pos h]; simp [ih]
    · rw [if_neg h]; simp

theorem pushPQ_length (dp : Pos) (g : Grid) (pq : List (Grid × Nat)) :
    (pushPQ dp g pq).length ≤ pq.length + 1 := by
  unfold pushPQ
  split
  · omega
  · rw [pqInsert_length]

theorem bestFold_pq_length (dp : Pos) (g : Grid) (ms : List Grid) :
    ∀ (pq : List (Grid × Nat)) (pm : ParentMap),
      ((ms.foldl (fun (acc : List (Grid × Nat) × ParentMap) ng =>
        (pushPQ dp ng acc.1,
         if lookupParent acc.2 ng = none then acc.2 ++ [(ng, some g)] else acc.2))
        (pq, pm)).1).length ≤ pq.length + ms.length := by
  induction ms with
  | nil => intro pq pm; simp
  | cons m rest ih =>
    intro pq pm
    rw [List.foldl_cons]
    calc ((rest.foldl _ (pushPQ dp m pq, _)).1).length
        ≤ (pushPQ dp m pq).length + rest.length := ih _ _
      _ ≤ pq.length + 1 + rest.length := by
          have := pushPQ_length dp m pq; omega
      _ = pq.length + (m :: rest).length := by simp; omega

theorem bfsFold_q_length (g : Grid) (ms : List Grid) :
    ∀ (q seen : List Grid) (pm : ParentMap),
      ((ms.foldl (fun (acc : List Grid × List Grid × ParentMap) ng =>
        if ng ∈ acc.2.1 then acc
        else (acc.1 ++ [ng], acc.2.1 ++ [ng], acc.2.2 ++ [(ng, some g)]))
        (q, seen, pm)).1).length ≤ q.length + ms.length := by
  induction ms with
  | nil => intro q seen pm; simp
  | cons m rest ih =>
    intro q seen pm
    rw [List.foldl_cons]
    by_cases hm : m ∈ seen
    · rw [if_pos hm]
      have := ih q seen pm
      simp only [List.length_cons]
      omega
    · rw [if_neg hm]
      have := ih (q ++ [m]) (seen ++ [m]) (pm ++ [(m, some g)])
      simp only [List.length_append, List.length_cons, List.length_nil] at this ⊢
      omega

/-- DFS loop: with enough fuel (measured by frontier size plus remaining
expansion budget) the loop never runs out of fuel. -/
theorem dfsLoop_no_fuelOut (dp : Pos) (m : Nat) :
    ∀ (fuel : Nat) (stack seen : List Grid) (parent : ParentMap)
      (nodes : Nat) (vis : List Pos),
      nodes ≤ m → stack.length + 5 * (m + 1 - nodes) < fuel →
      dfsLoop dp m fuel stack seen parent nodes vis ≠ .fuelOut := by
  intro fuel
  induction fuel with
  | zero => intro stack seen parent nodes vis _ hlt; omega
  | succ fuel ih =>
    intro stack seen parent nodes vis hn hlt
    match stack with
    | [] => simp [dfsLoop]
    | g :: stack =>
      rw [dfsLoop]
      by_cases hseen : g ∈ seen
      · rw [if_pos hseen]
        refine ih stack seen parent nodes vis hn ?_
        simp only [List.length_cons] at hlt
        omega
      · rw [if_neg hseen]
        simp only []
        by_cases hgoal : goalTest dp g = true
        · rw [if_pos hgoal]; simp
        · rw [if_neg hgoal]
          by_cases hceil : m < nodes + 1
          · rw [if_pos hceil]; simp
          · rw [if_neg hceil]
            refine ih _ _ _ _ _ (by omega) ?_
            rw [dfsFold_stack_length g (moveGen g) stack parent]
            have hmg := moveGen_length_le g
            simp only [List.length_cons] at hlt
            omega

theorem bfsLoop_no_fuelOut (dp : Pos) (m : Nat) :
    ∀ (fuel : Nat) (q seen : List Grid) (parent : ParentMap)
      (nodes : Nat) (vis : List Pos),
      nodes ≤ m → q.length + 5 * (m + 1 - nodes) < fuel →
      bfsLoop dp m fuel q seen parent nodes vis ≠ .fuelOut := by
  intro fuel
  induction fuel with
  | zero => intro q seen parent nodes vis _ hlt; omega
  | succ fuel ih =>
    intro q seen parent nodes vis hn hlt
    match q with
    | [] => simp [bfsLoop]
    | g :: q =>
      rw [bfsLoop]
      simp only []
      by_cases hgoal : goalTest dp g = true
      · rw [if_pos hgoal]; simp
      · rw [if_neg hgoal]
        by_cases hceil : m < nodes + 1
        · rw [if_pos hceil]; simp
        · rw [if_neg hceil]
          refine ih _ _ _ _ _ (by omega) ?_
          have hq := bfsFold_q_length g (moveGen g) q seen parent
          have hmg := moveGen_length_le g
          simp only [List.length_cons] at hlt
          omega

theorem bestLoop_no_fuelOut (dp : Pos) (m : Nat) :
    ∀ (fuel : Nat) (pq : List (Grid × Nat)) (seen : List Grid)
      (parent : ParentMap) (nodes : Nat) (vis : List Pos),
      nodes ≤ m → pq.length + 5 * (m + 1 - nodes) < fuel →
      bestLoop dp m fuel pq seen parent nodes vis ≠ .fuelOut := by
  intro fuel
  induction fuel with
  | zero => intro pq seen parent nodes vis _ hlt; omega
  | succ fuel ih =>
    intro pq seen parent nodes vis hn hlt
    match pq with
    | [] => simp [bestLoop]
    | (g, sc) :: pq =>
      rw [bestLoop]
      by_cases hseen : g ∈ seen
      · rw [if_pos hseen]
        refine ih pq seen parent nodes vis hn ?_
        simp only [List.length_cons] at hlt
        omega
      · rw [if_neg hseen]
        simp only []
        by_cases hgoal : goalTest dp g = true
        · rw [if_pos hgoal]; simp
        · rw [if_neg hgoal]
          by_cases hceil : m < nodes + 1
          · rw [if_pos hceil]; simp
          · rw [if_neg hceil]
            refine ih _ _ _ _ _ (by omega) ?_
            have hq := bestFold_pq_length dp g (moveGen g) pq parent
            have hmg := moveGen_length_le g
            simp only [List.length_cons] at hlt
            omega

/-- **C8**: each engine terminates on every input with one of the three
outcomes (`found`, frontier `empty`, or expansion `ceiling`); the embedding's
fuel bound is never exhausted, mirroring that the JS loops always halt —
either returning a path, or reporting failure with the partial statistics
(states expanded; wall-clock time is not modelled). -/
theorem C8_termination (start : Grid) (m : Nat) :
    dfsSolve start m ≠ .fuelOut ∧ bfsSolve start m ≠ .fuelOut ∧
    bestFirstSolve start m ≠ .fuelOut := by
  refine ⟨?_, ?_, ?_⟩
  · unfold dfsSolve
    rcases hd : findCell start DOCK with _ | dp
    · simp
    rcases hp : findCell start PROBE with _ | pp
    · simp
    exact dfsLoop_no_fuelOut dp m (searchFuel m) [start] [] [(start, none)] 0 []
      (by omega) (by unfold searchFuel; simp; omega)
  · unfold bfsSolve
    rcases hd : findCell start DOCK with _ | dp
    · simp
    rcases hp : findCell start PROBE with _ | pp
    · simp
    exact bfsLoop_no_fuelOut dp m (searchFuel m) [start] [start] [(start, none)] 0 []
      (by omega) (by unfold searchFuel; simp; omega)
  · unfold bestFirstSolve
    rcases hd : findCell start DOCK with _ | dp
    · simp
    refine bestLoop_no_fuelOut dp m (searchFuel m) (pushPQ dp start []) [] [(start, none)]
      0 [] (by omega) ?_
    have := pushPQ_length dp start []
    unfold searchFuel
    simp only [List.length_nil] at this
    omega

theorem dfsLoop_ceiling_count (dp : Pos) (m : Nat) :
    ∀ (fuel : Nat) (stack seen : List Grid) (parent : ParentMap)
      (nodes : Nat) (vis : List Pos) (n : Nat) (v : List Pos),
      nodes ≤ m →
      dfsLoop dp m fuel stack seen parent nodes vis = .ceiling n v → n = m + 1 := by
  intro fuel
  induction fuel with
  | zero => intro _ _ _ _ _ _ _ _ h; cases h
  | succ fuel ih =>
    intro stack seen parent nodes vis n v hn h
    match stack with
    | [] => cases h
    | g :: stack =>
      rw [dfsLoop] at h
      by_cases hseen : g ∈ seen
      · rw [if_pos hseen] at h
        exact ih stack seen parent nodes vis n v hn h
      · rw [if_neg hseen] at h
        simp only [] at h
        by_cases hgoal : goalTest dp g = true
        · rw [if_pos hgoal] at h; cases h
        · rw [if_neg hgoal] at h
          by_cases hceil : m < nodes + 1
          · rw [if_pos hceil] at h
            cases h
            omega
          · rw [if_neg hceil] at h
            exact ih _ _ _ _ _ n v (by omega) h

theorem bfsLoop_ceiling_count (dp : Pos) (m : Nat) :
    ∀ (fuel : Nat) (q seen : List Grid) (parent : ParentMap)
      (nodes : Nat) (vis : List Pos) (n : Nat) (v : List Pos),
      nodes ≤ m →
      bfsLoop dp m fuel q seen parent nodes vis = .ceiling n v → n = m + 1 := by
  intro fuel
  induction fuel with
  | zero => intro _ _ _ _ _ _ _ _ h; cases h
  | succ fuel ih =>
    intro q seen parent nodes vis n v hn h
    match q with
    | [] => cases h
    | g :: q =>
      rw [bfsLoop] at h
      simp only [] at h
      by_cases hgoal : goalTest dp g = true
      · rw [if_pos hgoal] at h; cases h
      · rw [if_neg hgoal] at h
        by_cases hceil : m < nodes + 1
        · rw [if_pos hceil] at h
          cases h
          omega
        · rw [if_neg hceil] at h
          exact ih _ _ _ _ _ n v (by omega) h

theorem bestLoop_ceiling_count (dp : Pos) (m : Nat) :
    ∀ (fuel : Nat) (pq : List (Grid × Nat)) (seen : List Grid)
      (parent : ParentMap) (nodes : Nat) (vis : List Pos) (n : Nat) (v : List Pos),
      nodes ≤ m →
      bestLoop dp m fuel pq seen parent nodes vis = .ceiling n v → n = m + 1 := by
  intro fuel
  induction fuel with
  | zero => intro _ _ _ _ _ _ _ _ h; cases h
  | succ fuel ih =>
    intro pq seen parent nodes vis n v hn h
    match pq with
    | [] => cases h
    | (g, sc) :: pq =>
      rw [bestLoop] at h
      by_cases hseen : g ∈ seen
      · rw [if_pos hseen] at h
        exact ih pq seen parent nodes vis n v hn h
      · rw [if_neg hseen] at h
        simp only [] at h
        by_cases hgoal : goalTest dp g = true
        · rw [if_pos hgoal] at h; cases h
        · rw [if_neg hgoal] at h
          by_cases hceil : m < nodes + 1
          · rw [if_pos hceil] at h
            cases h
            omega
          · rw [if_neg hceil] at h
            exact ih _ _ _ _ _ n v (by omega) h

/-- **C10**: whenever a solver fails because the expansion ceiling was reached
(the `ceiling` exit, as opposed to the frontier running empty), the reported
states-expanded count is exactly `maxNodes + 1`: the comparison `nodes >
maxNodes` runs after the counter is incremented. -/
theorem C10_ceiling_count (start : Grid) (m : Nat) :
    (∀ n v, dfsSolve start m = .ceiling n v → n = m + 1) ∧
    (∀ n v, bfsSolve start m = .ceiling n v → n = m + 1) ∧
    (∀ n v, bestFirstSolve start m = .ceiling n v → n = m + 1) := by
  refine ⟨?_, ?_, ?_⟩
  · intro n v h
    unfold dfsSolve at h
    rcases hd : findCell start DOCK with _ | dp <;> rw [hd] at h
    · cases h
    rcases hp : findCell start PROBE with _ | pp <;> rw [hp] at h
    · cases h
    exact dfsLoop_ceiling_count dp m _ _ _ _ _ _ n v (by omega) h
  · intro n v h
    unfold bfsSolve at h
    rcases hd : findCell start DOCK with _ | dp <;> rw [hd] at h
    · cases h
    rcases hp : findCell start PROBE with _ | pp <;> rw [hp] at h
    · cases h
    exact bfsLoop_ceiling_count dp m _ _ _ _ _ _ n v (by omega) h
  · intro n v h
    unfold bestFirstSolve at h
    rcases hd : findCell start DOCK with _ | dp <;> rw [hd] at h
    · cases h
    exact bestLoop_ceiling_count dp m _ _ _ _ _ _ n v (by omega) h

theorem C10_ceiling_count_witness :
    dfsSolve ([[3,0,4]] : Grid) 0 = .ceiling 1 [(0, 0)] ∧ (1 : Nat) = 0 + 1 :=
  ⟨by decide, (C10_ceiling_count [[3,0,4]] 0).1 1 [(0, 0)] (by decide)⟩

/-! # Parent maps and path reconstruction -/

theorem keys_snoc (pm : ParentMap) (k : Grid) (op : Option Grid) :
    keys (pm ++ [(k, op)]) = keys pm ++ [k] := by
  unfold keys; simp

theorem mem_keys_iff (pm : ParentMap) (k : Grid) :
    k ∈ keys pm ↔ ∃ op, (k, op) ∈ pm := by
  unfold keys
  rw [List.mem_map]
  constructor
  · rintro ⟨⟨k1, op⟩, hmem, rfl⟩
    exact ⟨op, hmem⟩
  · rintro ⟨op, hmem⟩
    exact ⟨(k, op), hmem, rfl⟩

theorem find?_eq_none_of_not_mem (pm : ParentMap) (k : Grid) (h : k ∉ keys pm) :
    pm.find? (fun e => e.1 == k) = none := by
  rw [List.find?_eq_none]
  intro e hmem heq
  exact h ((mem_keys_iff pm k).mpr ⟨e.2, by
    have he : e.1 = k := by simpa using heq
    rw [← he]; exact hmem⟩)

theorem lookup_isSome_of_mem (pm : ParentMap) (k : Grid) (h : k ∈ keys pm) :
    (lookupParent pm k).isSome = true := by
  unfold lookupParent
  obtain ⟨op, hmem⟩ := (mem_keys_iff pm k).mp h
  have hsome : (pm.find? (fun e => e.1 == k)).isSome = true := by
    rw [List.find?_isSome]
    exact ⟨(k, op), hmem, by simp⟩
  rcases hf : pm.find? (fun e => e.1 == k) with _ | e
  · rw [hf] at hsome; cases hsome
  · rw [hf]; rfl

theorem lookup_eq_none_iff (pm : ParentMap) (k : Grid) :
    lookupParent pm k = none ↔ k ∉ keys pm := by
  constructor
  · intro h hk
    have := lookup_isSome_of_mem pm k hk
    rw [h] at this
    cases this
  · intro h
    unfold lookupParent
    rw [find?_eq_none_of_not_mem pm k h]
    rfl

theorem lookup_append_left (pm e : ParentMap) (k : Grid) (h : k ∈ keys pm) :
    lookupParent (pm ++ e) k = lookupParent pm k := by
  unfold lookupParent
  rw [List.find?_append]
  have hs := lookup_isSome_of_mem pm k h
  unfold lookupParent at hs
  rcases hf : pm.find? (fun e => e.1 == k) with _ | x
  · rw [hf] at hs; cases hs
  · rw [hf, Option.or_of_isSome (by rfl)]

theorem lookup_snoc_self (pm : ParentMap) (k : Grid) (op : Option Grid)
    (h : k ∉ keys pm) :
    lookupParent (pm ++ [(k, op)]) k = some op := by
  unfold lookupParent
  rw [List.find?_append, find?_eq_none_of_not_mem pm k h, Option.none_or]
  rw [List.find?_cons_of_pos _ (by simp)]
  rfl

theorem PMap_start_mem (s : Grid) (pm : ParentMap) (h : PMap s pm) :
    s ∈ keys pm := by
  induction h with
  | base => simp [keys]
  | snoc h1 h2 h3 h4 ih =>
    rw [keys_snoc]
    exact List.mem_append_left _ ih

theorem PMap_length_pos (s : Grid) (pm : ParentMap) (h : PMap s pm) :
    1 ≤ pm.length := by
  induction h with
  | base => simp
  | snoc h1 h2 h3 h4 ih => simp

theorem PMap_lookup_start (s : Grid) (pm : ParentMap) (h : PMap s pm) :
    lookupParent pm s = some none := by
  induction h with
  | base =>
    unfold lookupParent
    rw [List.find?_cons_of_pos _ (by simp)]
    rfl
  | snoc h1 h2 h3 h4 ih =>
    rw [lookup_append_left _ _ _ (PMap_start_mem _ _ h1)]
    exact ih

theorem PMap_lookup_parent (s : Grid) (pm : ParentMap) (h : PMap s pm) :
    ∀ k p : Grid, lookupParent pm k = some (some p) →
      p ∈ keys pm ∧ StepRel p k := by
  induction h with
  | base =>
    intro k p hl
    unfold lookupParent at hl
    by_cases hk : s = k
    · rw [List.find?_cons_of_pos _ (by simp [hk])] at hl
      simp at hl
    · rw [List.find?_cons_of_neg _ (by simp [hk])] at hl
      simp at hl
  | @snoc pm0 k0 p0 h1 h2 h3 h4 ih =>
    intro k p hl
    by_cases hk : k ∈ keys pm0
    · rw [lookup_append_left _ _ _ hk] at hl
      obtain ⟨hmem, hstep⟩ := ih k p hl
      exact ⟨by rw [keys_snoc]; exact List.mem_append_left _ hmem, hstep⟩
    · unfold lookupParent at hl
      rw [List.find?_append, find?_eq_none_of_not_mem pm0 k hk,
        Option.none_or] at hl
      by_cases hk0 : k0 = k
      · rw [List.find?_cons_of_pos _ (by simp [hk0])] at hl
        have hp : p0 = p := by simpa using hl
        subst hp
        subst hk0
        exact ⟨by rw [keys_snoc]; exact List.mem_append_left _ h3, h2⟩
      · rw [List.find?_cons_of_neg _ (by simp [hk0])] at hl
        simp at hl

theorem reconstruct_append (s : Grid) (pm : ParentMap) (h : PMap s pm)
    (e : ParentMap) :
    ∀ fuel (k : Grid), k ∈ keys pm →
      reconstruct (pm ++ e) fuel k = reconstruct pm fuel k := by
  intro fuel
  induction fuel with
  | zero => intro k _; rfl
  | succ f ih =>
    intro k hk
    rw [reconstruct, reconstruct, lookup_append_left pm e k hk]
    rcases hl : lookupParent pm k with _ | op
    · rfl
    · rcases op with _ | p
      · rfl
      · show reconstruct (pm ++ e) f p ++ [k] = reconstruct pm f p ++ [k]
        rw [ih p (PMap_lookup_parent s pm h k p hl).1]

theorem chain_snoc (R : Grid → Grid → Prop) :
    ∀ (l : List Grid) (a b : Grid), List.Chain R a l →
    R ((a :: l).getLast (List.cons_ne_nil a l)) b → List.Chain R a (l ++ [b]) := by
  intro l
  induction l with
  | nil =>
    intro a b _ hR
    exact List.Chain.cons hR List.Chain.nil
  | cons c t ih =>
    intro a b hchain hR
    rcases hchain with _ | ⟨hac, hct⟩
    refine List.Chain.cons hac (ih c b hct ?_)
    rwa [List.getLast_cons (List.cons_ne_nil c t)] at hR

/-- Reconstruction from a well-built parent map yields a path from the start
to the key, for every sufficient fuel. -/
theorem PMap_reconstruct (s : Grid) (pm : ParentMap) (h : PMap s pm) :
    ∀ k, k ∈ keys pm → ∃ rest : List Grid,
      (∀ fuel, pm.length ≤ fuel → reconstruct pm fuel k = s :: rest) ∧
      List.Chain StepRel s rest ∧
      (s :: rest).getLast (List.cons_ne_nil s rest) = k := by
  induction h with
  | base =>
    intro k hk
    have hks : k = s := by unfold keys at hk; simpa using hk
    subst hks
    refine ⟨[], ?_, List.Chain.nil, rfl⟩
    intro fuel hf
    rcases fuel with _ | f
    · simp at hf
    · rw [reconstruct, PMap_lookup_start k _ PMap.base]
  | @snoc pm0 k0 p0 h1 h2 h3 h4 ih =>
    intro k hk
    rw [keys_snoc] at hk
    rcases List.mem_append.mp hk with hold | hnew
    · obtain ⟨rest, hfuel, hchain, hlast⟩ := ih k hold
      refine ⟨rest, ?_, hchain, hlast⟩
      intro fuel hf
      rw [reconstruct_append s pm0 h1 _ fuel k hold]
      refine hfuel fuel ?_
      simp at hf
      omega
    · have hkk0 : k = k0 := by simpa using hnew
      subst hkk0
      obtain ⟨rest, hfuel, hchain, hlast⟩ := ih p0 h3
      refine ⟨rest ++ [k], ?_, ?_, ?_⟩
      · intro fuel hf
        rcases fuel with _ | f
        · simp at hf
        · rw [reconstruct, lookup_snoc_self pm0 k (some p0) h4]
          show reconstruct (pm0 ++ [(k, some p0)]) f p0 ++ [k] = s :: (rest ++ [k])
          rw [reconstruct_append s pm0 h1 _ f p0 h3]
          rw [hfuel f (by simp at hf; omega)]
          rfl
      · exact chain_snoc StepRel rest s k hchain (hlast ▸ h2)
      · exact List.getLast_concat (s :: rest)

theorem dep_start (s : Grid) (pm : ParentMap) (h : PMap s pm) :
    dep pm s = 1 := by
  unfold dep
  have hl := PMap_length_pos s pm h
  obtain ⟨f, hf⟩ : ∃ f, pm.length = f + 1 := ⟨pm.length - 1, by omega⟩
  rw [hf, reconstruct, PMap_lookup_start s pm h]
  rfl

theorem dep_eq_of_mem (s : Grid) (pm : ParentMap) (h : PMap s pm) (k : Grid)
    (hk : k ∈ keys pm) (rest : List Grid)
    (hr : ∀ fuel, pm.length ≤ fuel → reconstruct pm fuel k = s :: rest) :
    dep pm k = rest.length + 1 := by
  unfold dep
  rw [hr pm.length le_rfl]
  simp

/-! ## Batch appends to the parent map -/

theorem keys_batch (pm : ParentMap) (g : Grid) (new : List Grid) :
    keys (pm ++ new.map (fun n => (n, some g))) = keys pm ++ new := by
  unfold keys
  rw [List.map_append, List.map_map]
  congr 1
  exact List.map_congr_left (fun x _ => rfl) |>.trans (List.map_id new)

theorem PMap_append_batch (s g : Grid) :
    ∀ (new : List Grid) (pm : ParentMap), PMap s pm → g ∈ keys pm →
      new.Nodup → (∀ n ∈ new, n ∉ keys pm) → (∀ n ∈ new, StepRel g n) →
      PMap s (pm ++ new.map (fun n => (n, some g))) := by
  intro new
  induction new with
  | nil =>
    intro pm h _ _ _ _
    simpa using h
  | cons n rest ih =>
    intro pm h hg hnd hfresh hstep
    have h' : PMap s (pm ++ [(n, some g)]) :=
      PMap.snoc h (hstep n (List.mem_cons_self n rest)) hg
        (hfresh n (List.mem_cons_self n rest))
    have hg' : g ∈ keys (pm ++ [(n, some g)]) := by
      rw [keys_snoc]; exact List.mem_append_left _ hg
    have hres := ih (pm ++ [(n, some g)]) h' hg'
      (List.Nodup.of_cons hnd)
      (by
        intro x hx
        rw [keys_snoc, List.mem_append]
        rintro (hcon | hcon)
        · exact hfresh x (List.mem_cons_of_mem n hx) hcon
        · have hxn : x = n := by simpa using hcon
          subst hxn
          exact (List.nodup_cons.mp hnd).1 hx)
      (fun x hx => hstep x (List.mem_cons_of_mem n hx))
    simpa [List.append_assoc] using hres

theorem find?_batch (g : Grid) :
    ∀ (new : List Grid) (n : Grid), n ∈ new →
      ∃ e, (new.map (fun x => (x, some g))).find? (fun e => e.1 == n) = some e ∧
        e.2 = some g := by
  intro new
  induction new with
  | nil => intro n hn; cases hn
  | cons m rest ih =>
    intro n hn
    rw [List.map_cons]
    by_cases hnm : m = n
    · refine ⟨(m, some g), ?_, rfl⟩
      rw [List.find?_cons_of_pos _ (by simp [hnm])]
    · rw [List.find?_cons_of_neg _ (by simp [hnm])]
      exact ih n (by
        rcases List.mem_cons.mp hn with h | h
        · exact absurd h.symm hnm
        · exact h)

theorem lookup_batch (pm : ParentMap) (g : Grid) (new : List Grid) (n : Grid)
    (hn : n ∈ new) (hfresh : n ∉ keys pm) :
    lookupParent (pm ++ new.map (fun x => (x, some g))) n = some (some g) := by
  unfold lookupParent
  rw [List.find?_append, find?_eq_none_of_not_mem pm n hfresh, Option.none_or]
  obtain ⟨e, hfind, he⟩ := find?_batch g new n hn
  rw [hfind]
  simp [he]

theorem dep_batch_old (s : Grid) (pm : ParentMap) (h : PMap s pm) (g : Grid)
    (new : List Grid) (k : Grid) (hk : k ∈ keys pm) :
    dep (pm ++ new.map (fun n => (n, some g))) k = dep pm k := by
  unfold dep
  rw [reconstruct_append s pm h _ _ k hk]
  obtain ⟨rest, hfuel, _, _⟩ := PMap_reconstruct s pm h k hk
  rw [hfuel _ (by simp), hfuel pm.length le_rfl]

theorem dep_batch_new (s : Grid) (pm : ParentMap) (h : PMap s pm) (g : Grid)
    (hg : g ∈ keys pm) (new : List Grid) (n : Grid) (hn : n ∈ new)
    (hfresh : n ∉ keys pm) :
    dep (pm ++ new.map (fun x => (x, some g))) n = dep pm g + 1 := by
  unfold dep
  have hlen : (pm ++ new.map (fun x => (x, some g))).length
      = pm.length + new.length := by simp
  have hnew_pos : 1 ≤ new.length := List.length_pos.mpr (by
    intro hcon; rw [hcon] at hn; cases hn)
  obtain ⟨f, hf⟩ : ∃ f, (pm ++ new.map (fun x => (x, some g))).length = f + 1 :=
    ⟨(pm ++ new.map (fun x => (x, some g))).length - 1, by
      have := PMap_length_pos s pm h
      omega⟩
  rw [hf, reconstruct, lookup_batch pm g new n hn hfresh]
  show (reconstruct (pm ++ new.map (fun x => (x, some g))) f g ++ [n]).length = _
  rw [reconstruct_append s pm h _ f g hg]
  obtain ⟨rest, hfuel, _, _⟩ := PMap_reconstruct s pm h g hg
  rw [hfuel f (by omega), hfuel pm.length le_rfl]
  simp

/-! ## Fold characterisations of the successor-insertion loops -/

theorem bfsFold_spec (g : Grid) (ms : List Grid) :
    ∀ (q seen : List Grid) (pm : ParentMap),
      ∃ new : List Grid,
        ms.foldl (fun (acc : List Grid × List Grid × ParentMap) ng =>
          if ng ∈ acc.2.1 then acc
          else (acc.1 ++ [ng], acc.2.1 ++ [ng], acc.2.2 ++ [(ng, some g)]))
          (q, seen, pm) =
          (q ++ new, seen ++ new, pm ++ new.map (fun n => (n, some g))) ∧
        new.Nodup ∧
        (∀ n ∈ new, n ∈ ms ∧ n ∉ seen) ∧
        (∀ x ∈ ms, x ∈ seen ∨ x ∈ new) := by
  induction ms with
  | nil =>
    intro q seen pm
    exact ⟨[], by simp, List.nodup_nil, by simp, by simp⟩
  | cons m rest ih =>
    intro q seen pm
    rw [List.foldl_cons]
    by_cases hm : m ∈ seen
    · rw [if_pos hm]
      obtain ⟨new, heq, hnd, hprops, hcover⟩ := ih q seen pm
      refine ⟨new, heq, hnd,
        fun n hn => ⟨List.mem_cons_of_mem m (hprops n hn).1, (hprops n hn).2⟩, ?_⟩
      intro x hx
      rcases List.mem_cons.mp hx with heq2 | hx2
      · exact Or.inl (heq2 ▸ hm)
      · exact hcover x hx2
    · rw [if_neg hm]
      obtain ⟨new, heq, hnd, hprops, hcover⟩ :=
        ih (q ++ [m]) (seen ++ [m]) (pm ++ [(m, some g)])
      refine ⟨m :: new, ?_, ?_, ?_, ?_⟩
      · rw [heq]
        simp [List.append_assoc]
      · rw [List.nodup_cons]
        refine ⟨?_, hnd⟩
        intro hmem
        have := (hprops m hmem).2
        simp at this
      · intro n hn
        rcases List.mem_cons.mp hn with heq2 | hn2
        · subst heq2
          exact ⟨List.mem_cons_self _ _, hm⟩
        · obtain ⟨hms, hnseen⟩ := hprops n hn2
          exact ⟨List.mem_cons_of_mem m hms,
            fun hcon => hnseen (List.mem_append_left _ hcon)⟩
      · intro x hx
        rcases List.mem_cons.mp hx with heq2 | hx2
        · subst heq2
          exact Or.inr (List.mem_cons_self _ _)
        · rcases hcover x hx2 with hseen | hnew
          · rcases List.mem_append.mp hseen with h | h
            · exact Or.inl h
            · have : x = m := by simpa using h
              subst this
              exact Or.inr (List.mem_cons_self _ _)
          · exact Or.inr (List.mem_cons_of_mem _ hnew)

theorem dfsFold_spec (g s : Grid) (ms : List Grid) :
    ∀ (st : List Grid) (pm : ParentMap), PMap s pm → g ∈ keys pm →
      (∀ n ∈ ms, StepRel g n) →
      ∃ pm2 : ParentMap,
        ms.foldl (fun (acc : List Grid × ParentMap) ng =>
          (ng :: acc.1,
           if lookupParent acc.2 ng = none then acc.2 ++ [(ng, some g)] else acc.2))
          (st, pm) = (ms.reverse ++ st, pm2) ∧
        PMap s pm2 ∧ (∀ k ∈ keys pm, k ∈ keys pm2) ∧ (∀ n ∈ ms, n ∈ keys pm2) := by
  induction ms with
  | nil =>
    intro st pm h hg _
    exact ⟨pm, by simp, h, fun k hk => hk, by simp⟩
  | cons m rest ih =>
    intro st pm h hg hstep
    rw [List.foldl_cons]
    by_cases hl : lookupParent pm m = none
    · rw [if_pos hl]
      have hm : m ∉ keys pm := (lookup_eq_none_iff pm m).mp hl
      have h' : PMap s (pm ++ [(m, some g)]) :=
        PMap.snoc h (hstep m (List.mem_cons_self m rest)) hg hm
      have hg' : g ∈ keys (pm ++ [(m, some g)]) := by
        rw [keys_snoc]; exact List.mem_append_left _ hg
      obtain ⟨pm2, heq, hpm2, hsub, hms⟩ := ih (m :: st) (pm ++ [(m, some g)]) h' hg'
        (fun n hn => hstep n (List.mem_cons_of_mem m hn))
      refine ⟨pm2, ?_, hpm2, ?_, ?_⟩
      · rw [heq]
        simp
      · intro k hk
        refine hsub k ?_
        rw [keys_snoc]
        exact List.mem_append_left _ hk
      · intro n hn
        rcases List.mem_cons.mp hn with rfl | hn
        · refine hsub n ?_
          rw [keys_snoc]
          exact List.mem_append_right _ (by simp)
        · exact hms n hn
    · rw [if_neg hl]
      have hm : m ∈ keys pm := by
        by_contra hcon
        exact hl ((lookup_eq_none_iff pm m).mpr hcon)
      obtain ⟨pm2, heq, hpm2, hsub, hms⟩ := ih (m :: st) pm h hg
        (fun n hn => hstep n (List.mem_cons_of_mem m hn))
      refine ⟨pm2, ?_, hpm2, hsub, ?_⟩
      · rw [heq]
        simp
      · intro n hn
        rcases List.mem_cons.mp hn with rfl | hn
        · exact hsub n hm
        · exact hms n hn

theorem mem_pqInsert (x y : Grid × Nat) (l : List (Grid × Nat)) :
    x ∈ pqInsert y l ↔ x = y ∨ x ∈ l := by
  induction l with
  | nil => simp [pqInsert]
  | cons z zs ih =>
    rw [pqInsert]
    by_cases h : z.2 ≤ y.2
    · rw [if_pos h]
      simp only [List.mem_cons, ih]
      tauto
    · rw [if_neg h]
      simp only [List.mem_cons]

theorem mem_pushPQ (dp : Pos) (g : Grid) (pq : List (Grid × Nat))
    (x : Grid × Nat) (hx : x ∈ pushPQ dp g pq) : x.1 = g ∨ x ∈ pq := by
  unfold pushPQ at hx
  rcases hfc : findCell g PROBE with _ | p
  · rw [hfc] at hx
    exact Or.inr hx
  · rw [hfc] at hx
    rcases (mem_pqInsert x (g, manhattan p dp) pq).mp hx with h | h
    · exact Or.inl (by rw [h])
    · exact Or.inr h

theorem bestFold_spec (dp : Pos) (g s : Grid) (ms : List Grid) :
    ∀ (pq : List (Grid × Nat)) (pm : ParentMap), PMap s pm → g ∈ keys pm →
      (∀ n ∈ ms, StepRel g n) →
      ∃ (pq2 : List (Grid × Nat)) (pm2 : ParentMap),
        ms.foldl (fun (acc : List (Grid × Nat) × ParentMap) ng =>
          (pushPQ dp ng acc.1,
           if lookupParent acc.2 ng = none then acc.2 ++ [(ng, some g)] else acc.2))
          (pq, pm) = (pq2, pm2) ∧
        PMap s pm2 ∧ (∀ k ∈ keys pm, k ∈ keys pm2) ∧
        (∀ x ∈ pq2, x ∈ pq ∨ x.1 ∈ keys pm2) := by
  induction ms with
  | nil =>
    intro pq pm h hg _
    exact ⟨pq, pm, rfl, h, fun k hk => hk, fun x hx => Or.inl hx⟩
  | cons m rest ih =>
    intro pq pm h hg hstep
    rw [List.foldl_cons]
    have hkeys_m : ∀ (pm' : ParentMap),
        (if lookupParent pm m = none then pm ++ [(m, some g)] else pm) = pm' →
        PMap s pm' ∧ g ∈ keys pm' ∧ m ∈ keys pm' ∧ ∀ k ∈ keys pm, k ∈ keys pm' := by
      intro pm' hpm'
      by_cases hl : lookupParent pm m = none
      · rw [if_pos hl] at hpm'
        subst hpm'
        have hm : m ∉ keys pm := (lookup_eq_none_iff pm m).mp hl
        refine ⟨PMap.snoc h (hstep m (List.mem_cons_self m rest)) hg hm, ?_, ?_, ?_⟩
        · rw [keys_snoc]; exact List.mem_append_left _ hg
        · rw [keys_snoc]; exact List.mem_append_right _ (by simp)
        · intro k hk; rw [keys_snoc]; exact List.mem_append_left _ hk
      · rw [if_neg hl] at hpm'
        subst hpm'
        refine ⟨h, hg, ?_, fun k hk => hk⟩
        by_contra hcon
        exact hl ((lookup_eq_none_iff pm m).mpr hcon)
    obtain ⟨hpm', hg', hm', hsub'⟩ := hkeys_m _ rfl
    obtain ⟨pq2, pm2, heq, hpm2, hsub, hpq⟩ := ih (pushPQ dp m pq) _ hpm' hg'
      (fun n hn => hstep n (List.mem_cons_of_mem m hn))
    refine ⟨pq2, pm2, heq, hpm2, fun k hk => hsub k (hsub' k hk), ?_⟩
    intro x hx
    rcases hpq x hx with hold | hkey
    · rcases mem_pushPQ dp m pq x hold with hxm | hxpq
      · exact Or.inr (by rw [hxm]; exact hsub m hm')
      · exact Or.inl hxpq
    · exact Or.inr hkey

/-! ## Found results are genuine solution paths -/

theorem dfsLoop_found_path (dp : Pos) (m : Nat) (s : Grid) :
    ∀ (fuel : Nat) (stack seen : List Grid) (parent : ParentMap)
      (nodes : Nat) (vis : List Pos) (p : List Grid) (n : Nat) (v : List Pos),
      FrontInv s stack parent →
      dfsLoop dp m fuel stack seen parent nodes vis = .found p n v →
      IsSolPath dp s p := by
  intro fuel
  induction fuel with
  | zero => intro _ _ _ _ _ _ _ _ hinv h; cases h
  | succ fuel ih =>
    intro stack seen parent nodes vis p n v hinv h
    match stack with
    | [] => cases h
    | g :: stack =>
      rw [dfsLoop] at h
      by_cases hseen : g ∈ seen
      · rw [if_pos hseen] at h
        exact ih stack seen parent nodes vis p n v
          ⟨hinv.pmap, fun k hk => hinv.fr_keys k (List.mem_cons_of_mem g hk)⟩ h
      · rw [if_neg hseen] at h
        simp only [] at h
        have hg : g ∈ keys parent := hinv.fr_keys g (List.mem_cons_self g stack)
        by_cases hgoal : goalTest dp g = true
        · rw [if_pos hgoal] at h
          obtain ⟨rest, hfuel, hchain, hlast⟩ :=
            PMap_reconstruct s parent hinv.pmap g hg
          have hp : p = s :: rest := by
            cases h
            exact hfuel parent.length le_rfl
          rw [hp]
          exact ⟨rfl, hchain, by rw [hlast]; exact hgoal⟩
        · rw [if_neg hgoal] at h
          by_cases hceil : m < nodes + 1
          · rw [if_pos hceil] at h; cases h
          · rw [if_neg hceil] at h
            obtain ⟨pm2, heq, hpm2, hsub, hms⟩ :=
              dfsFold_spec g s (moveGen g) stack parent hinv.pmap hg
                (fun x hx => hx)
            rw [heq] at h
            refine ih _ _ _ _ _ p n v ⟨hpm2, ?_⟩ h
            intro k hk
            rcases List.mem_append.mp hk with hrev | hst
            · exact hms k (List.mem_reverse.mp hrev)
            · exact hsub k (hinv.fr_keys k (List.mem_cons_of_mem g hst))

theorem bestLoop_found_path (dp : Pos) (m : Nat) (s : Grid) :
    ∀ (fuel : Nat) (pq : List (Grid × Nat)) (seen : List Grid)
      (parent : ParentMap) (nodes : Nat) (vis : List Pos)
      (p : List Grid) (n : Nat) (v : List Pos),
      PMap s parent → (∀ x ∈ pq, x.1 ∈ keys parent) →
      bestLoop dp m fuel pq seen parent nodes vis = .found p n v →
      IsSolPath dp s p := by
  intro fuel
  induction fuel with
  | zero => intro _ _ _ _ _ _ _ _ _ _ h; cases h
  | succ fuel ih =>
    intro pq seen parent nodes vis p n v hpm hpq h
    match pq with
    | [] => cases h
    | (g, sc) :: pq =>
      rw [bestLoop] at h
      by_cases hseen : g ∈ seen
      · rw [if_pos hseen] at h
        exact ih pq seen parent nodes vis p n v hpm
          (fun x hx => hpq x (List.mem_cons_of_mem _ hx)) h
      · rw [if_neg hseen] at h
        simp only [] at h
        have hg : g ∈ keys parent := hpq (g, sc) (List.mem_cons_self _ pq)
        by_cases hgoal : goalTest dp g = true
        · rw [if_pos hgoal] at h
          obtain ⟨rest, hfuel, hchain, hlast⟩ :=
            PMap_reconstruct s parent hpm g hg
          have hp : p = s :: rest := by
            cases h
            exact hfuel parent.length le_rfl
          rw [hp]
          exact ⟨rfl, hchain, by rw [hlast]; exact hgoal⟩
        · rw [if_neg hgoal] at h
          by_cases hceil : m < nodes + 1
          · rw [if_pos hceil] at h; cases h
          · rw [if_neg hceil] at h
            obtain ⟨pq2, pm2, heq, hpm2, hsub, hpq2⟩ :=
              bestFold_spec dp g s (moveGen g) pq parent hpm hg (fun x hx => hx)
            rw [heq] at h
            refine ih _ _ _ _ _ p n v hpm2 ?_ h
            intro x hx
            rcases hpq2 x hx with hold | hkey
            · exact hsub x.1 (hpq x (List.mem_cons_of_mem _ hold))
            · exact hkey

/-! ## BFS invariant maintenance and optimality -/

theorem BfsInv_init (dp : Pos) (s : Grid) :
    BfsInv dp s [s] [s] [(s, none)] := by
  refine ⟨PMap.base, ?_, ?_, ?_, ?_, ?_, ?_, ?_, ?_, ?_⟩
  · intro k; simp [keys]
  · exact List.nodup_singleton s
  · exact List.nodup_singleton s
  · intro k hk; exact hk
  · simp
  · intro u hu huq
    have : u = s := by simpa using hu
    subst this
    exact absurd (by simp) huq
  · intro u hu huq
    have : u = s := by simpa using hu
    subst this
    exact absurd (by simp) huq
  · simp
  · intro u hu w hw
    have hus : u = s := by simpa using hu
    have hws : w = s := by simpa using hw
    subst hus; subst hws
    omega

theorem BfsInv_step (dp : Pos) (s g : Grid) (q seen : List Grid)
    (parent : ParentMap) (hinv : BfsInv dp s (g :: q) seen parent)
    (hgoal : goalTest dp g = false)
    (new : List Grid) (hnd : new.Nodup)
    (hnew : ∀ n ∈ new, n ∈ moveGen g ∧ n ∉ seen)
    (hcover : ∀ x ∈ moveGen g, x ∈ seen ∨ x ∈ new) :
    BfsInv dp s (q ++ new) (seen ++ new)
      (parent ++ new.map (fun n => (n, some g))) := by
  have hgseen : g ∈ seen := hinv.q_sub g (List.mem_cons_self g q)
  have hgkeys : g ∈ keys parent := (hinv.keys_eq g).mp hgseen
  have hfresh : ∀ n ∈ new, n ∉ keys parent := fun n hn hcon =>
    (hnew n hn).2 ((hinv.keys_eq n).mpr hcon)
  have hqt_sub : ∀ k ∈ q, k ∈ seen := fun k hk =>
    hinv.q_sub k (List.mem_cons_of_mem g hk)
  have hpm' : PMap s (parent ++ new.map (fun n => (n, some g))) :=
    PMap_append_batch s g new parent hinv.pmap hgkeys hnd hfresh
      (fun n hn => (hnew n hn).1)
  have hdep_old : ∀ k ∈ seen,
      dep (parent ++ new.map (fun n => (n, some g))) k = dep parent k :=
    fun k hk => dep_batch_old s parent hinv.pmap g new k ((hinv.keys_eq k).mp hk)
  have hdep_new : ∀ n ∈ new,
      dep (parent ++ new.map (fun n => (n, some g))) n = dep parent g + 1 :=
    fun n hn => dep_batch_new s parent hinv.pmap g hgkeys new n hn (hfresh n hn)
  have hhead : ∀ y ∈ q, dep parent g ≤ dep parent y :=
    (List.pairwise_cons.mp hinv.q_sorted).1
  have hbound_g : ∀ u ∈ seen, dep parent u ≤ dep parent g + 1 :=
    fun u hu => hinv.seen_bound u hu g (List.mem_cons_self g q)
  have hnew_notin_q : ∀ n ∈ new, n ∉ q := fun n hn hcon =>
    (hnew n hn).2 (hqt_sub n hcon)
  refine ⟨hpm', ?_, ?_, ?_, ?_, ?_, ?_, ?_, ?_, ?_⟩
  · intro k
    rw [keys_batch, List.mem_append, List.mem_append, hinv.keys_eq k]
  · exact List.Nodup.append hinv.seen_nodup hnd
      (fun a ha hb => (hnew a hb).2 ha)
  · exact List.Nodup.append (List.nodup_cons.mp hinv.q_nodup).2 hnd
      (fun a ha hb => (hnew a hb).2 (hqt_sub a ha))
  · intro k hk
    rcases List.mem_append.mp hk with h | h
    · exact List.mem_append_left _ (hqt_sub k h)
    · exact List.mem_append_right _ h
  · exact List.mem_append_left _ hinv.start_seen
  · intro u hu huq
    rcases List.mem_append.mp hu with h | h
    · by_cases hug : u = g
      · subst hug; exact hgoal
      · refine hinv.exp_no_goal u h ?_
        intro hcon
        rcases List.mem_cons.mp hcon with h1 | h1
        · exact hug h1
        · exact huq (List.mem_append_left _ h1)
    · exact absurd (List.mem_append_right _ h) huq
  · intro u hu huq v hv
    rcases List.mem_append.mp hu with h | h
    · by_cases hug : u = g
      · subst hug
        rcases hcover v hv with hvseen | hvnew
        · refine ⟨List.mem_append_left _ hvseen, ?_⟩
          rw [hdep_old v hvseen, hdep_old u h]
          exact hbound_g v hvseen
        · refine ⟨List.mem_append_right _ hvnew, ?_⟩
          rw [hdep_new v hvnew, hdep_old u h]
      · have huexp : u ∉ g :: q := by
          intro hcon
          rcases List.mem_cons.mp hcon with h1 | h1
          · exact hug h1
          · exact huq (List.mem_append_left _ h1)
        obtain ⟨hvseen, hvdep⟩ := hinv.exp_succ u h huexp v hv
        refine ⟨List.mem_append_left _ hvseen, ?_⟩
        rw [hdep_old v hvseen, hdep_old u h]
        exact hvdep
    · exact absurd (List.mem_append_right _ h) huq
  · rw [List.pairwise_append]
    refine ⟨?_, ?_, ?_⟩
    · refine List.Pairwise.imp_of_mem ?_ (List.pairwise_cons.mp hinv.q_sorted).2
      intro a b ha hb hab
      rw [hdep_old a (hqt_sub a ha), hdep_old b (hqt_sub b hb)]
      exact hab
    · refine List.pairwise_of_forall_mem_list ?_
      intro a ha b hb
      rw [hdep_new a ha, hdep_new b hb]
    · intro a ha b hb
      rw [hdep_old a (hqt_sub a ha), hdep_new b hb]
      have := hbound_g a (hqt_sub a ha)
      omega
  · intro u hu w hw
    rcases List.mem_append.mp hu with hu1 | hu1 <;>
      rcases List.mem_append.mp hw with hw1 | hw1
    · rw [hdep_old u hu1, hdep_old w (hqt_sub w hw1)]
      exact hinv.seen_bound u hu1 w (List.mem_cons_of_mem g hw1)
    · rw [hdep_old u hu1, hdep_new w hw1]
      have := hbound_g u hu1
      omega
    · rw [hdep_new u hu1, hdep_old w (hqt_sub w hw1)]
      have := hhead w hw1
      omega
    · rw [hdep_new u hu1, hdep_new w hw1]
      omega

/-- From any seen state a solution path must pass through the queue: walking
along the path, the first not-yet-expanded state lies in the queue with depth
bounded by its position in the path. -/
theorem bfs_walk (dp : Pos) (s : Grid) (q seen : List Grid) (parent : ParentMap)
    (hinv : BfsInv dp s q seen parent) :
    ∀ (l : List Grid) (a : Grid) (ja : Nat), List.Chain StepRel a l →
      goalTest dp ((a :: l).getLast (List.cons_ne_nil a l)) = true →
      a ∈ seen → dep parent a ≤ ja + 1 →
      ∃ w ∈ q, dep parent w ≤ ja + l.length + 1 := by
  intro l
  induction l with
  | nil =>
    intro a ja _ hgoal haseen hdep
    by_cases haq : a ∈ q
    · exact ⟨a, haq, by simpa using hdep⟩
    · have hga : goalTest dp a = true := by simpa using hgoal
      have hfalse := hinv.exp_no_goal a haseen haq
      rw [hfalse] at hga
      cases hga
  | cons b l ih =>
    intro a ja hchain hgoal haseen hdep
    by_cases haq : a ∈ q
    · refine ⟨a, haq, ?_⟩
      simp only [List.length_cons]
      omega
    · rcases hchain with _ | ⟨hab, hbl⟩
      obtain ⟨hbseen, hdepb⟩ := hinv.exp_succ a haseen haq b hab
      have hgoal' : goalTest dp ((b :: l).getLast (List.cons_ne_nil b l)) = true := by
        rwa [List.getLast_cons (List.cons_ne_nil b l)] at hgoal
      obtain ⟨w, hw, hwdep⟩ := ih b (ja + 1) hbl hgoal' hbseen (by omega)
      refine ⟨w, hw, ?_⟩
      simp only [List.length_cons] at hwdep ⊢
      omega

theorem bfsLoop_found_opt (dp : Pos) (m : Nat) (s : Grid) :
    ∀ (fuel : Nat) (q seen : List Grid) (parent : ParentMap)
      (nodes : Nat) (vis : List Pos) (p : List Grid) (n : Nat) (v : List Pos),
      BfsInv dp s q seen parent →
      bfsLoop dp m fuel q seen parent nodes vis = .found p n v →
      IsSolPath dp s p ∧ ∀ p0, IsSolPath dp s p0 → p.length ≤ p0.length := by
  intro fuel
  induction fuel with
  | zero => intro _ _ _ _ _ _ _ _ hinv h; cases h
  | succ fuel ih =>
    intro q seen parent nodes vis p n v hinv h
    match q with
    | [] => cases h
    | g :: q =>
      rw [bfsLoop] at h
      simp only [] at h
      have hgseen : g ∈ seen := hinv.q_sub g (List.mem_cons_self g q)
      have hgkeys : g ∈ keys parent := (hinv.keys_eq g).mp hgseen
      by_cases hgoal : goalTest dp g = true
      · rw [if_pos hgoal] at h
        obtain ⟨rest, hfuel, hchain, hlast⟩ :=
          PMap_reconstruct s parent hinv.pmap g hgkeys
        have hp : p = s :: rest := by
          cases h
          exact hfuel parent.length le_rfl
        have hdepg : dep parent g = p.length := by
          rw [hp]
          have := dep_eq_of_mem s parent hinv.pmap g hgkeys rest hfuel
          rw [this]
          simp
        refine ⟨by rw [hp]; exact ⟨rfl, hchain, by rw [hlast]; exact hgoal⟩, ?_⟩
        intro p0 hp0
        match p0, hp0 with
        | a :: rest0, ⟨ha, hchain0, hgoal0⟩ =>
          have hdeps : dep parent s = 1 := dep_start s parent hinv.pmap
          obtain ⟨w, hw, hwdep⟩ := bfs_walk dp s (g :: q) seen parent hinv
            rest0 a 0 hchain0 hgoal0 (by rw [ha]; exact hinv.start_seen)
            (by rw [ha, hdeps])
          have hgw : dep parent g ≤ dep parent w := by
            rcases List.mem_cons.mp hw with heq | hmem
            · rw [heq]
            · exact (List.pairwise_cons.mp hinv.q_sorted).1 w hmem
          simp only [List.length_cons]
          omega
      · rw [if_neg hgoal] at h
        by_cases hceil : m < nodes + 1
        · rw [if_pos hceil] at h; cases h
        · rw [if_neg hceil] at h
          obtain ⟨new, heq, hnd, hnew, hcover⟩ :=
            bfsFold_spec g (moveGen g) q seen parent
          rw [heq] at h
          exact ih _ _ _ _ _ p n v
            (BfsInv_step dp s g q seen parent hinv
              (by simpa using hgoal) new hnd hnew hcover) h

/-- **C1**: when `bfsSolve` returns a path, that path is a genuine solution
(start-rooted `moveGen` chain whose last configuration passes the goal test
for the dock captured from the start) with the minimum number of probe
actions (length minus one) among all such solutions; in particular it is no
longer than any path returned by `dfsSolve` or `bestFirstSolve` on the same
start. -/
theorem C1_bfs_optimal (start : Grid) (mB : Nat) (dp : Pos) (p : List Grid)
    (n : Nat) (v : List Pos)
    (hdock : findCell start DOCK = some dp)
    (hrun : bfsSolve start mB = .found p n v) :
    IsSolPath dp start p ∧
    (∀ p0, IsSolPath dp start p0 → p.length ≤ p0.length) ∧
    (∀ mD pd nd vd, dfsSolve start mD = .found pd nd vd → p.length ≤ pd.length) ∧
    (∀ mG pg ng vg, bestFirstSolve start mG = .found pg ng vg →
      p.length ≤ pg.length) := by
  unfold bfsSolve at hrun
  rw [hdock] at hrun
  rcases hp : findCell start PROBE with _ | pp
  · rw [hp] at hrun; cases hrun
  rw [hp] at hrun
  obtain ⟨hsol, hmin⟩ := bfsLoop_found_opt dp mB start (searchFuel mB)
    [start] [start] [(start, none)] 0 [] p n v (BfsInv_init dp start) hrun
  refine ⟨hsol, hmin, ?_, ?_⟩
  · intro mD pd nd vd hd
    unfold dfsSolve at hd
    rw [hdock, hp] at hd
    refine hmin pd (dfsLoop_found_path dp mD start (searchFuel mD)
      [start] [] [(start, none)] 0 [] pd nd vd ⟨PMap.base, ?_⟩ hd)
    intro k hk
    have : k = start := by simpa using hk
    subst this
    simp [keys]
  · intro mG pg ng vg hg
    unfold bestFirstSolve at hg
    rw [hdock] at hg
    refine hmin pg (bestLoop_found_path dp mG start (searchFuel mG)
      (pushPQ dp start []) [] [(start, none)] 0 [] pg ng vg PMap.base ?_ hg)
    intro x hx
    rcases mem_pushPQ dp start [] x hx with h | h
    · rw [h]; simp [keys]
    · cases h

theorem C1_bfs_optimal_witness :
    IsSolPath (0, 1) [[3,4]] [[[3,4]],[[0,3]]] ∧
    ([[[3,4]],[[0,3]]] : List Grid).length ≤ ([[[3,4]],[[0,3]]] : List Grid).length :=
  ⟨(C1_bfs_optimal [[3,4]] 5 (0, 1) [[[3,4]],[[0,3]]] 2 [(0,0),(0,1)]
      (by decide) (by decide)).1,
   (C1_bfs_optimal [[3,4]] 5 (0, 1) [[[3,4]],[[0,3]]] 2 [(0,0),(0,1)]
      (by decide) (by decide)).2.2.1 5 [[[3,4]],[[0,3]]] 2 [(0,0),(0,1)] (by decide)⟩

/-- **C7** (amended): `isGoal` is identically false — a cell cannot hold both
the Probe and the Dock tag, so `findCell g PROBE` and `findCell g DOCK` can
never coincide; goal detection is done entirely by `isAtDock` with the dock
position captured from the start.  For every returned solution path, the
first element is the start, which does *not* satisfy `isAtDock`; the last
element satisfies `isAtDock` (and, contrary to the claim as stated, fails
`isGoal` like every other configuration). -/
theorem C7_goal_test (start : Grid) (dp pp : Pos) (mD mB mG : Nat)
    (hdock : findCell start DOCK = some dp)
    (hprobe : findCell start PROBE = some pp) :
    (∀ g : Grid, isGoal g = false) ∧
    isAtDock start (some dp) = false ∧
    (∀ p n v, dfsSolve start mD = .found p n v →
      p.head? = some start ∧
      ∃ glast, p.getLast? = some glast ∧ isAtDock glast (some dp) = true) ∧
    (∀ p n v, bfsSolve start mB = .found p n v →
      p.head? = some start ∧
      ∃ glast, p.getLast? = some glast ∧ isAtDock glast (some dp) = true) ∧
    (∀ p n v, bestFirstSolve start mG = .found p n v →
      p.head? = some start ∧
      ∃ glast, p.getLast? = some glast ∧ isAtDock glast (some dp) = true) := by
  have hppne : pp ≠ dp := by
    intro hcon
    have h1 := findCell_spec start PROBE pp hprobe
    have h2 := findCell_spec start DOCK dp hdock
    rw [hcon, h2] at h1
    simp [PROBE, DOCK] at h1
  have hstart_dock : isAtDock start (some dp) = false := by
    unfold isAtDock
    rw [hprobe]
    by_contra hcon
    simp only [Bool.not_eq_false, Bool.and_eq_true, decide_eq_true_eq] at hcon
    exact hppne (Prod.ext hcon.1 hcon.2)
  have hpath : ∀ p : List Grid, IsSolPath dp start p →
      p.head? = some start ∧
      ∃ glast, p.getLast? = some glast ∧ isAtDock glast (some dp) = true := by
    intro p hp
    match p with
    | [] => exact hp.elim
    | a :: rest =>
      obtain ⟨ha, _, hgoal⟩ := hp
      subst ha
      refine ⟨rfl, (a :: rest).getLast (List.cons_ne_nil a rest),
        List.getLast?_eq_getLast _ _, ?_⟩
      unfold goalTest at hgoal
      rw [isGoal_false] at hgoal
      simpa using hgoal
  refine ⟨isGoal_false, hstart_dock, ?_, ?_, ?_⟩
  · intro p n v h
    unfold dfsSolve at h
    rw [hdock, hprobe] at h
    refine hpath p (dfsLoop_found_path dp mD start (searchFuel mD)
      [start] [] [(start, none)] 0 [] p n v ⟨PMap.base, ?_⟩ h)
    intro k hk
    have hks : k = start := by simpa using hk
    subst hks
    simp [keys]
  · intro p n v h
    unfold bfsSolve at h
    rw [hdock, hprobe] at h
    exact hpath p (bfsLoop_found_opt dp mB start (searchFuel mB)
      [start] [start] [(start, none)] 0 [] p n v (BfsInv_init dp start) h).1
  · intro p n v h
    unfold bestFirstSolve at h
    rw [hdock] at h
    refine hpath p (bestLoop_found_path dp mG start (searchFuel mG)
      (pushPQ dp start []) [] [(start, none)] 0 [] p n v PMap.base ?_ h)
    intro x hx
    rcases mem_pushPQ dp start [] x hx with h2 | h2
    · rw [h2]; simp [keys]
    · cases h2

theorem C7_goal_test_witness :
    isAtDock [[3,4]] (some (0, 1)) = false :=
  (C7_goal_test [[3,4]] (0, 1) (0, 0) 5 5 5 (by decide) (by decide)).2.1

/-- **C7 counterexample**: `dfsSolve` on the 1×2 start `[[PROBE, DOCK]]` finds
the two-element path ending in `[[EMPTY, PROBE]]`, yet `isGoal` on that final
configuration is false (it is false on every configuration): the claim that
the last element of a returned path satisfies `isGoal` is wrong — it satisfies
only `isAtDock`. -/
theorem C7_isGoal_cex :
    dfsSolve [[3,4]] 5 = .found [[[3,4]],[[0,3]]] 2 [(0,0),(0,1)] ∧
    isGoal [[0,3]] = false :=
  ⟨by decide, by decide⟩


/-! ## Heap lemmas: the copy-on-write discipline of `moveGen` -/

theorem writeCellH_length (s : Store) (ng : GridRef) (r c : Nat) (v : Cell) :
    (writeCellH s ng r c v).rowsH.length = s.rowsH.length := by
  rw [writeCellH]
  rcases h : ng.get? r with _ | id
  · simp [h]
  · simp [h, List.length_set]

theorem readRow_writeCellH_ne (s : Store) (ng : GridRef) (r c : Nat) (v : Cell)
    (id : RowId) (hid : id ∉ ng) :
    readRow (writeCellH s ng r c v) id = readRow s id := by
  rw [writeCellH]
  rcases h : ng.get? r with _ | id0
  · simp [h]
  · simp only [h]
    have hmem : id0 ∈ ng := List.get?_mem h
    have hne : id0 ≠ id := fun hcon => hid (hcon ▸ hmem)
    simp only [readRow, List.getD_eq_getElem?_getD]
    rw [List.getElem?_set_ne hne]

theorem denote_writeCellH (c : Nat) (v : Cell) (ng : GridRef) :
    ∀ (r : Nat) (s : Store), ValidRef s ng → ng.Nodup →
      denote (writeCellH s ng r c v) ng = setCell (denote s ng) r c v := by
  induction ng with
  | nil => intro r s _ _; rfl
  | cons id rest ih =>
    intro r s hv hnd
    have hnotmem : id ∉ rest := (List.nodup_cons.mp hnd).1
    rcases r with _ | r
    · have hidlt : id < s.rowsH.length := hv id (List.mem_cons_self id rest)
      have hhead : readRow ⟨s.rowsH.set id ((readRow s id).set c v)⟩ id
          = (readRow s id).set c v := by
        simp only [readRow, List.getD_eq_getElem?_getD]
        rw [List.getElem?_set_self hidlt]
        rfl
      have htail : rest.map (readRow ⟨s.rowsH.set id ((readRow s id).set c v)⟩)
          = rest.map (readRow s) := by
        refine List.map_congr_left fun a ha => ?_
        have hne : id ≠ a := fun hcon => hnotmem (hcon ▸ ha)
        simp only [readRow, List.getD_eq_getElem?_getD]
        rw [List.getElem?_set_ne hne]
      show readRow ⟨s.rowsH.set id ((readRow s id).set c v)⟩ id
          :: rest.map (readRow ⟨s.rowsH.set id ((readRow s id).set c v)⟩)
        = setCell (denote s (id :: rest)) 0 c v
      rw [hhead, htail]
      rfl
    · have hstep : writeCellH s (id :: rest) (r + 1) c v = writeCellH s rest r c v := rfl
      rw [hstep]
      have hv2 : ValidRef s rest := fun i hi => hv i (List.mem_cons_of_mem _ hi)
      have hnd2 : rest.Nodup := (List.nodup_cons.mp hnd).2
      show readRow (writeCellH s rest r c v) id
          :: denote (writeCellH s rest r c v) rest
        = setCell (denote s (id :: rest)) (r + 1) c v
      rw [readRow_writeCellH_ne s rest r c v id hnotmem, ih r s hv2 hnd2]
      rfl

theorem cloneGridH_length (s : Store) (gr : GridRef) :
    (cloneGridH s gr).1.rowsH.length = s.rowsH.length + gr.length := by
  simp [cloneGridH]

theorem readRow_cloneGridH (s : Store) (gr : GridRef) (id : RowId)
    (h : id < s.rowsH.length) :
    readRow (cloneGridH s gr).1 id = readRow s id := by
  show (s.rowsH ++ gr.map (readRow s)).getD id [] = s.rowsH.getD id []
  rw [List.getD_eq_getElem?_getD, List.getD_eq_getElem?_getD,
    List.getElem?_append_left h]

theorem cloneGridH_ref_lb (s : Store) (gr : GridRef) (id : RowId)
    (h : id ∈ (cloneGridH s gr).2) :
    s.rowsH.length ≤ id ∧ id < s.rowsH.length + gr.length := by
  have h2 : id ∈ List.range' s.rowsH.length gr.length := h
  exact List.mem_range'_1.mp h2

theorem cloneGridH_nodup (s : Store) (gr : GridRef) : (cloneGridH s gr).2.Nodup :=
  List.nodup_range' s.rowsH.length gr.length 1 Nat.one_pos

theorem map_range'_getD (ys : List (List Cell)) :
    ∀ xs : List (List Cell),
      (List.range' xs.length ys.length).map (fun i => (xs ++ ys).getD i []) = ys := by
  induction ys with
  | nil => intro xs; rfl
  | cons y ys ih =>
    intro xs
    have hr : List.range' xs.length (y :: ys).length
        = xs.length :: List.range' (xs.length + 1) ys.length := rfl
    rw [hr, List.map_cons]
    have h1 : (xs ++ y :: ys).getD xs.length [] = y := by
      rw [List.getD_eq_getElem?_getD, List.getElem?_append_right (le_refl xs.length)]
      simp
    have h2 := ih (xs ++ [y])
    simp only [List.length_append, List.length_cons, List.length_nil, Nat.zero_add,
      List.append_assoc, List.singleton_append] at h2
    rw [h1, h2]

theorem denote_cloneGridH (s : Store) (gr : GridRef) :
    denote (cloneGridH s gr).1 (cloneGridH s gr).2 = denote s gr := by
  show (List.range' s.rowsH.length gr.length).map
      (readRow ⟨s.rowsH ++ gr.map (readRow s)⟩) = gr.map (readRow s)
  have h := map_range'_getD (gr.map (readRow s)) s.rowsH
  rw [List.length_map] at h
  have heq : (List.range' s.rowsH.length gr.length).map
      (readRow ⟨s.rowsH ++ gr.map (readRow s)⟩)
      = (List.range' s.rowsH.length gr.length).map
        (fun i => (s.rowsH ++ gr.map (readRow s)).getD i []) :=
    List.map_congr_left fun i _ => rfl
  rw [heq, h]

theorem shiftChainH_fold (ng : GridRef) (dr dc : Int) :
    ∀ (ps : List (Int × Int)) (s : Store), ValidRef s ng → ng.Nodup →
      (ps.foldl (fun st p =>
          writeCellH (writeCellH st ng (p.1 + dr).toNat (p.2 + dc).toNat AST)
            ng p.1.toNat p.2.toNat EMPTY) s).rowsH.length = s.rowsH.length ∧
      (∀ id, id ∉ ng →
        readRow (ps.foldl (fun st p =>
          writeCellH (writeCellH st ng (p.1 + dr).toNat (p.2 + dc).toNat AST)
            ng p.1.toNat p.2.toNat EMPTY) s) id = readRow s id) ∧
      denote (ps.foldl (fun st p =>
          writeCellH (writeCellH st ng (p.1 + dr).toNat (p.2 + dc).toNat AST)
            ng p.1.toNat p.2.toNat EMPTY) s) ng
        = ps.foldl (fun gg p =>
            setCell (setCell gg (p.1 + dr).toNat (p.2 + dc).toNat AST)
              p.1.toNat p.2.toNat EMPTY) (denote s ng) := by
  intro ps
  induction ps with
  | nil => intro s hv hnd; exact ⟨rfl, fun _ _ => rfl, rfl⟩
  | cons p ps ih =>
    intro s hv hnd
    have hlen1 : (writeCellH (writeCellH s ng (p.1 + dr).toNat (p.2 + dc).toNat AST)
        ng p.1.toNat p.2.toNat EMPTY).rowsH.length = s.rowsH.length := by
      rw [writeCellH_length, writeCellH_length]
    have hvA : ValidRef (writeCellH s ng (p.1 + dr).toNat (p.2 + dc).toNat AST) ng := by
      intro i hi
      rw [writeCellH_length]
      exact hv i hi
    have hv1 : ValidRef (writeCellH (writeCellH s ng (p.1 + dr).toNat (p.2 + dc).toNat AST)
        ng p.1.toNat p.2.toNat EMPTY) ng := by
      intro i hi
      rw [hlen1]
      exact hv i hi
    obtain ⟨ihl, ihf, ihd⟩ := ih _ hv1 hnd
    refine ⟨?_, ?_, ?_⟩
    · simp only [List.foldl_cons]
      rw [ihl, hlen1]
    · intro id hid
      simp only [List.foldl_cons]
      rw [ihf id hid, readRow_writeCellH_ne _ _ _ _ _ _ hid,
        readRow_writeCellH_ne _ _ _ _ _ _ hid]
    · simp only [List.foldl_cons]
      rw [ihd, denote_writeCellH _ _ _ _ _ hvA hnd, denote_writeCellH _ _ _ _ _ hv hnd]

theorem moveDirH_spec (s : Store) (gr : GridRef) (pr pc : Nat) (d : Int × Int)
    (hv : ValidRef s gr) :
    (moveDirH s gr pr pc d = none → moveDir (denote s gr) pr pc d = none) ∧
    (∀ s2 ng, moveDirH s gr pr pc d = some (s2, ng) →
      moveDir (denote s gr) pr pc d = some (denote s2 ng) ∧
      s2.rowsH.length = s.rowsH.length + gr.length ∧
      (∀ id, id < s.rowsH.length → readRow s2 id = readRow s id) ∧
      (∀ id ∈ ng, s.rowsH.length ≤ id ∧ id < s2.rowsH.length)) := by
  have hmain :
      (moveDirH s gr pr pc d = none ∧ moveDir (denote s gr) pr pc d = none) ∨
      (∃ s2 ng, moveDirH s gr pr pc d = some (s2, ng) ∧
        moveDir (denote s gr) pr pc d = some (denote s2 ng) ∧
        s2.rowsH.length = s.rowsH.length + gr.length ∧
        (∀ id, id < s.rowsH.length → readRow s2 id = readRow s id) ∧
        (∀ id ∈ ng, s.rowsH.length ≤ id ∧ id < s2.rowsH.length)) := by
    have hnd := cloneGridH_nodup s gr
    have hv1 : ValidRef (cloneGridH s gr).1 (cloneGridH s gr).2 := by
      intro i hi
      rw [cloneGridH_length]
      exact (cloneGridH_ref_lb s gr i hi).2
    have hv2 : ValidRef (writeCellH (cloneGridH s gr).1 (cloneGridH s gr).2 pr pc EMPTY) (cloneGridH s gr).2 := by
      intro i hi
      rw [writeCellH_length]
      exact hv1 i hi
    by_cases hb : inBounds (denote s gr) ((pr : Int) + d.1) ((pc : Int) + d.2) = true
    case neg =>
      have hbf : inBounds (denote s gr) ((pr : Int) + d.1) ((pc : Int) + d.2) = false :=
        Bool.eq_false_iff.mpr hb
      exact Or.inl ⟨by simp [moveDirH, hbf], moveDir_oob _ _ _ _ hbf⟩
    case pos =>
    rcases hcell : cellAt (denote s gr) ((pr : Int) + d.1).toNat ((pc : Int) + d.2).toNat with _ | v
    · exact Or.inl ⟨by simp [moveDirH, hb, hcell], by simp [moveDir, hb, hcell]⟩
    by_cases hw : v = WALL
    · subst hw
      exact Or.inl ⟨by simp [moveDirH, hb, hcell, WALL],
        moveDir_wall _ _ _ _ hb hcell⟩
    by_cases hE : v = EMPTY ∨ v = DOCK
    · have hH : moveDirH s gr pr pc d = some ((writeCellH (writeCellH (cloneGridH s gr).1 (cloneGridH s gr).2 pr pc EMPTY) (cloneGridH s gr).2 ((pr : Int) + d.1).toNat ((pc : Int) + d.2).toNat PROBE), (cloneGridH s gr).2) := by
        rcases hE with h | h <;> subst h <;>
          simp [moveDirH, hb, hcell, EMPTY, DOCK, WALL]
      have hden : denote (writeCellH (writeCellH (cloneGridH s gr).1 (cloneGridH s gr).2 pr pc EMPTY) (cloneGridH s gr).2 ((pr : Int) + d.1).toNat ((pc : Int) + d.2).toNat PROBE) (cloneGridH s gr).2
          = setCell (setCell (denote s gr) pr pc EMPTY) ((pr : Int) + d.1).toNat ((pc : Int) + d.2).toNat PROBE := by
        rw [denote_writeCellH _ _ _ _ _ hv2 hnd, denote_writeCellH _ _ _ _ _ hv1 hnd,
          denote_cloneGridH]
      have hP : moveDir (denote s gr) pr pc d = some (denote (writeCellH (writeCellH (cloneGridH s gr).1 (cloneGridH s gr).2 pr pc EMPTY) (cloneGridH s gr).2 ((pr : Int) + d.1).toNat ((pc : Int) + d.2).toNat PROBE) (cloneGridH s gr).2) := by
        rw [hden]
        exact moveDir_step _ _ _ _ v hb hcell hE
      have hlen : ((writeCellH (writeCellH (cloneGridH s gr).1 (cloneGridH s gr).2 pr pc EMPTY) (cloneGridH s gr).2 ((pr : Int) + d.1).toNat ((pc : Int) + d.2).toNat PROBE)).rowsH.length = s.rowsH.length + gr.length := by
        rw [writeCellH_length, writeCellH_length, cloneGridH_length]
      refine Or.inr ⟨_, _, hH, hP, hlen, ?_, ?_⟩
      · intro id hid
        have hnot : id ∉ (cloneGridH s gr).2 := fun hcon =>
          absurd hid (Nat.not_lt.mpr (cloneGridH_ref_lb s gr id hcon).1)
        rw [readRow_writeCellH_ne _ _ _ _ _ _ hnot,
          readRow_writeCellH_ne _ _ _ _ _ _ hnot, readRow_cloneGridH s gr id hid]
      · intro id hid
        have h := cloneGridH_ref_lb s gr id hid
        exact ⟨h.1, by rw [hlen]; exact h.2⟩
    by_cases hA : v = AST
    · subst hA
      have cW : ¬ (AST = WALL) := by decide
      have cE : ¬ (AST = EMPTY ∨ AST = DOCK) := by decide
      by_cases hb2 : inBounds (denote s gr) (((pr : Int) + d.1) + (collectChain (denote s gr) d.1 d.2 (chainFuel (denote s gr)) ((pr : Int) + d.1)
        ((pc : Int) + d.2)).length * d.1) (((pc : Int) + d.2) + (collectChain (denote s gr) d.1 d.2 (chainFuel (denote s gr)) ((pr : Int) + d.1)
        ((pc : Int) + d.2)).length * d.2) = true
      case neg =>
        have hb2f : inBounds (denote s gr) (((pr : Int) + d.1) + (collectChain (denote s gr) d.1 d.2 (chainFuel (denote s gr)) ((pr : Int) + d.1)
        ((pc : Int) + d.2)).length * d.1) (((pc : Int) + d.2) + (collectChain (denote s gr) d.1 d.2 (chainFuel (denote s gr)) ((pr : Int) + d.1)
        ((pc : Int) + d.2)).length * d.2) = false :=
          Bool.eq_false_iff.mpr hb2
        refine Or.inl ⟨by simp [moveDirH, hb, hcell, cW, cE, hb2f], ?_⟩
        rw [moveDir_ast _ _ _ _ hb hcell]
        simp [hb2f]
      case pos =>
      by_cases hend : cellAt (denote s gr) (((pr : Int) + d.1) + (collectChain (denote s gr) d.1 d.2 (chainFuel (denote s gr)) ((pr : Int) + d.1)
        ((pc : Int) + d.2)).length * d.1).toNat (((pc : Int) + d.2) + (collectChain (denote s gr) d.1 d.2 (chainFuel (denote s gr)) ((pr : Int) + d.1)
        ((pc : Int) + d.2)).length * d.2).toNat = some EMPTY
      case neg =>
        refine Or.inl ⟨by simp [moveDirH, hb, hcell, cW, cE, hb2, hend], ?_⟩
        rw [moveDir_ast _ _ _ _ hb hcell]
        simp [hb2, hend]
      case pos =>
      obtain ⟨hlenF, hframeF, hdenF⟩ :=
        shiftChainH_fold (cloneGridH s gr).2 d.1 d.2 (collectChain (denote s gr) d.1 d.2 (chainFuel (denote s gr)) ((pr : Int) + d.1)
        ((pc : Int) + d.2)).reverse (writeCellH (cloneGridH s gr).1 (cloneGridH s gr).2 pr pc EMPTY) hv2 hnd
      have hlenSH : ((shiftChainH (writeCellH (cloneGridH s gr).1 (cloneGridH s gr).2 pr pc EMPTY) (cloneGridH s gr).2 d.1 d.2 (collectChain (denote s gr) d.1 d.2 (chainFuel (denote s gr)) ((pr : Int) + d.1)
        ((pc : Int) + d.2)))).rowsH.length = ((writeCellH (cloneGridH s gr).1 (cloneGridH s gr).2 pr pc EMPTY)).rowsH.length := by
        rw [shiftChainH]
        exact hlenF
      have hframeSH : ∀ id, id ∉ (cloneGridH s gr).2 →
          readRow (shiftChainH (writeCellH (cloneGridH s gr).1 (cloneGridH s gr).2 pr pc EMPTY) (cloneGridH s gr).2 d.1 d.2 (collectChain (denote s gr) d.1 d.2 (chainFuel (denote s gr)) ((pr : Int) + d.1)
        ((pc : Int) + d.2))) id = readRow (writeCellH (cloneGridH s gr).1 (cloneGridH s gr).2 pr pc EMPTY) id := by
        intro id hid
        rw [shiftChainH]
        exact hframeF id hid
      have hvSH : ValidRef (shiftChainH (writeCellH (cloneGridH s gr).1 (cloneGridH s gr).2 pr pc EMPTY) (cloneGridH s gr).2 d.1 d.2 (collectChain (denote s gr) d.1 d.2 (chainFuel (denote s gr)) ((pr : Int) + d.1)
        ((pc : Int) + d.2))) (cloneGridH s gr).2 := by
        intro i hi
        rw [hlenSH, writeCellH_length]
        exact hv1 i hi
      have hH : moveDirH s gr pr pc d = some ((writeCellH (shiftChainH (writeCellH (cloneGridH s gr).1 (cloneGridH s gr).2 pr pc EMPTY) (cloneGridH s gr).2 d.1 d.2 (collectChain (denote s gr) d.1 d.2 (chainFuel (denote s gr)) ((pr : Int) + d.1)
        ((pc : Int) + d.2))) (cloneGridH s gr).2 ((pr : Int) + d.1).toNat ((pc : Int) + d.2).toNat PROBE), (cloneGridH s gr).2) := by
        simp [moveDirH, hb, hcell, cW, cE, hb2, hend]
      have hden : denote (writeCellH (shiftChainH (writeCellH (cloneGridH s gr).1 (cloneGridH s gr).2 pr pc EMPTY) (cloneGridH s gr).2 d.1 d.2 (collectChain (denote s gr) d.1 d.2 (chainFuel (denote s gr)) ((pr : Int) + d.1)
        ((pc : Int) + d.2))) (cloneGridH s gr).2 ((pr : Int) + d.1).toNat ((pc : Int) + d.2).toNat PROBE) (cloneGridH s gr).2
          = setCell (shiftChain (setCell (denote s gr) pr pc EMPTY) d.1 d.2
              (collectChain (denote s gr) d.1 d.2 (chainFuel (denote s gr)) ((pr : Int) + d.1)
        ((pc : Int) + d.2))) ((pr : Int) + d.1).toNat ((pc : Int) + d.2).toNat PROBE := by
        rw [denote_writeCellH _ _ _ _ _ hvSH hnd]
        rw [shiftChainH]
        rw [hdenF]
        rw [denote_writeCellH _ _ _ _ _ hv1 hnd, denote_cloneGridH]
        rw [shiftChain]
      have hP : moveDir (denote s gr) pr pc d = some (denote (writeCellH (shiftChainH (writeCellH (cloneGridH s gr).1 (cloneGridH s gr).2 pr pc EMPTY) (cloneGridH s gr).2 d.1 d.2 (collectChain (denote s gr) d.1 d.2 (chainFuel (denote s gr)) ((pr : Int) + d.1)
        ((pc : Int) + d.2))) (cloneGridH s gr).2 ((pr : Int) + d.1).toNat ((pc : Int) + d.2).toNat PROBE) (cloneGridH s gr).2) := by
        rw [moveDir_ast _ _ _ _ hb hcell, if_neg (not_not_intro hb2),
          if_neg (not_not_intro hend), hden]
      have hlen : ((writeCellH (shiftChainH (writeCellH (cloneGridH s gr).1 (cloneGridH s gr).2 pr pc EMPTY) (cloneGridH s gr).2 d.1 d.2 (collectChain (denote s gr) d.1 d.2 (chainFuel (denote s gr)) ((pr : Int) + d.1)
        ((pc : Int) + d.2))) (cloneGridH s gr).2 ((pr : Int) + d.1).toNat ((pc : Int) + d.2).toNat PROBE)).rowsH.length = s.rowsH.length + gr.length := by
        rw [writeCellH_length, hlenSH, writeCellH_length, cloneGridH_length]
      refine Or.inr ⟨_, _, hH, hP, hlen, ?_, ?_⟩
      · intro id hid
        have hnot : id ∉ (cloneGridH s gr).2 := fun hcon =>
          absurd hid (Nat.not_lt.mpr (cloneGridH_ref_lb s gr id hcon).1)
        rw [readRow_writeCellH_ne _ _ _ _ _ _ hnot, hframeSH id hnot,
          readRow_writeCellH_ne _ _ _ _ _ _ hnot, readRow_cloneGridH s gr id hid]
      · intro id hid
        have h := cloneGridH_ref_lb s gr id hid
        exact ⟨h.1, by rw [hlen]; exact h.2⟩
    · exact Or.inl ⟨by simp [moveDirH, hb, hcell, hw, hE, hA],
        by simp [moveDir, hb, hcell, hw, hE, hA]⟩
  rcases hmain with ⟨h1, h2⟩ | ⟨s2, ng, h1, h2⟩
  · refine ⟨fun _ => h2, fun s2 ng hcon => ?_⟩
    rw [h1] at hcon
    cases hcon
  · refine ⟨fun hcon => ?_, fun s2a nga hcon => ?_⟩
    · rw [h1] at hcon
      cases hcon
    · rw [h1] at hcon
      simp only [Option.some.injEq, Prod.mk.injEq] at hcon
      obtain ⟨he1, he2⟩ := hcon
      subst he1
      subst he2
      exact h2

theorem moveGenH_fold (gr : GridRef) (pr pc : Nat) (g : Grid) :
    ∀ (dirs : List (Int × Int)) (s : Store) (refs : List GridRef),
      ValidRef s gr → denote s gr = g →
      (∀ n0 ∈ refs, ∀ id ∈ n0, id < s.rowsH.length) →
      s.rowsH.length ≤ (dirs.foldl (moveGenHStep gr pr pc) (s, refs)).1.rowsH.length ∧
      (∀ id, id < s.rowsH.length →
        readRow (dirs.foldl (moveGenHStep gr pr pc) (s, refs)).1 id = readRow s id) ∧
      (∀ n0 ∈ (dirs.foldl (moveGenHStep gr pr pc) (s, refs)).2, ∀ id ∈ n0,
        id < (dirs.foldl (moveGenHStep gr pr pc) (s, refs)).1.rowsH.length) ∧
      (∀ n0 ∈ (dirs.foldl (moveGenHStep gr pr pc) (s, refs)).2,
        n0 ∈ refs ∨ ∀ id ∈ n0, s.rowsH.length ≤ id) ∧
      (dirs.foldl (moveGenHStep gr pr pc) (s, refs)).2.map
          (denote (dirs.foldl (moveGenHStep gr pr pc) (s, refs)).1)
        = refs.map (denote s) ++ dirs.filterMap (moveDir g pr pc) := by
  intro dirs
  induction dirs with
  | nil =>
    intro s refs hv hg hrefs
    exact ⟨le_refl _, fun _ _ => rfl, hrefs, fun n0 hn0 => Or.inl hn0, by simp⟩
  | cons d dirs ih =>
    intro s refs hv hg hrefs
    simp only [List.foldl_cons]
    rcases hmd : moveDirH s gr pr pc d with _ | sng
    · have hstep : moveGenHStep gr pr pc (s, refs) d = (s, refs) := by
        rw [moveGenHStep]
        simp only []
        simp only [hmd]
      rw [hstep]
      obtain ⟨h1, h2, h3, h4, h5⟩ := ih s refs hv hg hrefs
      have hnone : moveDir g pr pc d = none := by
        rw [← hg]
        exact (moveDirH_spec s gr pr pc d hv).1 hmd
      refine ⟨h1, h2, h3, h4, ?_⟩
      rw [h5, List.filterMap_cons_none hnone]
    · obtain ⟨hP, hlen2, hframe2, hbnd2⟩ :=
        (moveDirH_spec s gr pr pc d hv).2 sng.1 sng.2 (by rw [hmd])
      rw [hg] at hP
      have hstep : moveGenHStep gr pr pc (s, refs) d = (sng.1, refs ++ [sng.2]) := by
        rw [moveGenHStep]
        simp only []
        simp only [hmd]
      rw [hstep]
      have hv2 : ValidRef sng.1 gr := by
        intro i hi
        rw [hlen2]
        exact Nat.lt_of_lt_of_le (hv i hi) (Nat.le_add_right _ _)
      have hg2 : denote sng.1 gr = g := by
        rw [← hg]
        show gr.map (readRow sng.1) = gr.map (readRow s)
        exact List.map_congr_left fun i hi => hframe2 i (hv i hi)
      have hrefs2 : ∀ n0 ∈ refs ++ [sng.2], ∀ id ∈ n0, id < sng.1.rowsH.length := by
        intro n0 hn0 id hid
        rcases List.mem_append.mp hn0 with h | h
        · have hlt := hrefs n0 h id hid
          rw [hlen2]
          exact Nat.lt_of_lt_of_le hlt (Nat.le_add_right _ _)
        · have hn : n0 = sng.2 := by simpa using h
          subst hn
          exact (hbnd2 id hid).2
      obtain ⟨h1, h2, h3, h4, h5⟩ := ih sng.1 (refs ++ [sng.2]) hv2 hg2 hrefs2
      have hsle : s.rowsH.length ≤ sng.1.rowsH.length := by
        rw [hlen2]
        exact Nat.le_add_right _ _
      refine ⟨le_trans hsle h1, ?_, h3, ?_, ?_⟩
      · intro id hid
        have hid2 : id < sng.1.rowsH.length := Nat.lt_of_lt_of_le hid hsle
        rw [h2 id hid2, hframe2 id hid]
      · intro n0 hn0
        rcases h4 n0 hn0 with h | h
        · rcases List.mem_append.mp h with h0 | h0
          · exact Or.inl h0
          · have hn : n0 = sng.2 := by simpa using h0
            subst hn
            exact Or.inr fun id hid => (hbnd2 id hid).1
        · exact Or.inr fun id hid => le_trans hsle (h id hid)
      · have hrefs_stable : refs.map (denote sng.1) = refs.map (denote s) := by
          refine List.map_congr_left fun n0 hn0 => ?_
          show n0.map (readRow sng.1) = n0.map (readRow s)
          exact List.map_congr_left fun i hi => hframe2 i (hrefs n0 hn0 i hi)
        rw [h5, List.map_append, hrefs_stable, List.filterMap_cons_some hP]
        simp [List.append_assoc]

theorem moveGenH_spec (s : Store) (gr : GridRef) (hv : ValidRef s gr) :
    (∀ id, id < s.rowsH.length → readRow (moveGenH s gr).1 id = readRow s id) ∧
    (∀ ng ∈ (moveGenH s gr).2, ∀ id ∈ ng, s.rowsH.length ≤ id) ∧
    (moveGenH s gr).2.map (denote (moveGenH s gr).1) = moveGen (denote s gr) := by
  rcases hfc : findCell (denote s gr) PROBE with _ | ⟨pr, pc⟩
  · have hout : moveGenH s gr = (s, []) := by
      rw [moveGenH]
      simp only [hfc]
    refine ⟨?_, ?_, ?_⟩
    · intro id hid
      rw [hout]
    · intro ng hng id hid
      rw [hout] at hng
      exact absurd hng (List.not_mem_nil ng)
    · rw [hout]
      simp [moveGen, hfc]
  · have hout : moveGenH s gr = DIRS.foldl (moveGenHStep gr pr pc) (s, []) := by
      rw [moveGenH]
      simp only [hfc]
    obtain ⟨h1, h2, h3, h4, h5⟩ := moveGenH_fold gr pr pc (denote s gr) DIRS s []
      hv rfl (fun n0 hn0 => absurd hn0 (List.not_mem_nil n0))
    refine ⟨?_, ?_, ?_⟩
    · intro id hid
      rw [hout]
      exact h2 id hid
    · intro ng hng id hid
      rw [hout] at hng
      rcases h4 ng hng with h | h
      · exact absurd h (List.not_mem_nil ng)
      · exact h id hid
    · rw [hout, h5]
      simp [moveGen, hfc]

/-- **C9**: `moveGen` never mutates its input configuration, and every
successor it emits is a fresh full copy sharing no row storage with the
input.  In the heap model: running `moveGenH` leaves every row of the input
reference (indeed every previously allocated row) with exactly its old
contents, so the denoted input grid is unchanged; every emitted reference
uses only freshly allocated row addresses, disjoint from the input's; and
the emitted references denote exactly the successors `moveGen` computes on
the input's value. -/
theorem C9_copy_on_write (s : Store) (gr : GridRef)
    (hv : ∀ id ∈ gr, id < s.rowsH.length) :
    (∀ id ∈ gr, readRow (moveGenH s gr).1 id = readRow s id) ∧
    denote (moveGenH s gr).1 gr = denote s gr ∧
    (∀ ng ∈ (moveGenH s gr).2, ∀ id ∈ ng, id ∉ gr) ∧
    (moveGenH s gr).2.map (denote (moveGenH s gr).1) = moveGen (denote s gr) := by
  obtain ⟨h1, h2, h3⟩ := moveGenH_spec s gr hv
  refine ⟨fun id hid => h1 id (hv id hid), ?_, ?_, h3⟩
  · show gr.map (readRow (moveGenH s gr).1) = gr.map (readRow s)
    exact List.map_congr_left fun id hid => h1 id (hv id hid)
  · intro ng hng id hid hcon
    have ha := h2 ng hng id hid
    exact absurd (hv id hcon) (Nat.not_lt.mpr ha)

theorem C9_copy_on_write_witness :
    denote (moveGenH ⟨[[3,4]]⟩ [0]).1 [0] = denote ⟨[[3,4]]⟩ [0] ∧
    (moveGenH ⟨[[3,4]]⟩ [0]).2.map (denote (moveGenH ⟨[[3,4]]⟩ [0]).1)
      = moveGen (denote ⟨[[3,4]]⟩ [0]) :=
  ⟨(C9_copy_on_write ⟨[[3,4]]⟩ [0] (by decide)).2.1,
   (C9_copy_on_write ⟨[[3,4]]⟩ [0] (by decide)).2.2.2⟩

end Probe
